import Mathlib

/-!
Verification development for the kode-xterm terminal relay and transcript
recorder.  The JavaScript sources (`src/server/server.js`,
`src/lib/transcriptStore.js`, `src/pages/api/terminal/socket.js`, the
transcript formatter and the `lib/sessionStore.js` module bundled with
`src/pages/keys.js`) are shallowly embedded below: strings are `List Char`,
the per-session mutable maps (`commandBuffers`, `pendingCommands`,
`replEnvironments`) become fields of an explicit state record, and the
fallible transport write is a boolean parameter.  JavaScript string helpers
(`trim`, `split`, `includes`, `replace`) are reimplemented with the same
semantics for the character ranges the code manipulates.
-/

namespace KodeXterm

/-- Whitespace test used by the embedding of JavaScript `String.trim` and
the regex class `\s` (the ASCII whitespace characters; the sources only
manipulate ASCII control characters and ASCII text). -/
def isWsJs (c : Char) : Bool :=
  c = ' ' || c = '\t' || c = '\n' || c = '\r' || c = '\x0b' || c = '\x0c'

/-- Embedding of JavaScript `String.prototype.trim` (strip leading and
trailing whitespace). -/
def jsTrim (l : List Char) : List Char :=
  ((l.dropWhile isWsJs).reverse.dropWhile isWsJs).reverse

/-- Strip trailing whitespace only; used to embed regexes of the form
`X\s*$` (a suffix match of `X` followed by whitespace to the end). -/
def dropTrailingWs (l : List Char) : List Char :=
  (l.reverse.dropWhile isWsJs).reverse

/-- Embedding of JavaScript `String.prototype.split` on a character class:
`jsSplit p l` cuts `l` at every character satisfying `p`, producing one more
segment than there are separators (segments may be empty). -/
def jsSplit (p : Char → Bool) : List Char → List (List Char)
  | [] => [[]]
  | c :: rest =>
    match jsSplit p rest with
    | [] => [[]]
    | s :: ss => if p c then [] :: s :: ss else (c :: s) :: ss

/-- Whether `pat` is an initial segment of `l` (JavaScript `startsWith`). -/
def startsWithL (pat l : List Char) : Bool :=
  match pat, l with
  | [], _ => true
  | _ :: _, [] => false
  | p :: ps, c :: cs => p = c && startsWithL ps cs

/-- Whether `pat` occurs as a contiguous substring of `l` (JavaScript
`String.prototype.includes`). -/
def containsL (pat : List Char) : List Char → Bool
  | [] => startsWithL pat []
  | c :: cs => startsWithL pat (c :: cs) || containsL pat cs

/-- Whether `pat` is a final segment of `l` (JavaScript `endsWith`). -/
def endsWithL (pat l : List Char) : Bool :=
  startsWithL pat.reverse l.reverse

/-- Embedding of a JavaScript global regex replace whose pattern is a single
character `a`: every occurrence of `a` in the subject is replaced by `rep`. -/
def replaceOne (a : Char) (rep : List Char) : List Char → List Char
  | [] => []
  | c :: rest =>
    if c = a then rep ++ replaceOne a rep rest else c :: replaceOne a rep rest

/-- Embedding of a JavaScript global regex replace whose pattern is the
two-character sequence `a` `b`: occurrences are found left to right without
overlap and each is replaced by `rep`. -/
def replaceTwo (a b : Char) (rep : List Char) : List Char → List Char
  | [] => []
  | [c] => [c]
  | c :: d :: rest =>
    if c = a && d = b then rep ++ replaceTwo a b rep rest
    else c :: replaceTwo a b rep (d :: rest)

/-- Whether the two-character sequence `a` `b` occurs in `l`. -/
def hasPair (a b : Char) : List Char → Bool
  | [] => false
  | [_] => false
  | c :: d :: rest => (c = a && d = b) || hasPair a b (d :: rest)

/-- Command-boundary terminator test: carriage return or newline. -/
def isTermC (c : Char) : Bool := c = '\r' || c = '\n'

/-- Number of line terminators in a chunk. -/
def countTerm (l : List Char) : Nat := l.countP isTermC

/-- The part of a keystroke stream before its first line terminator. -/
def takeNonTerm (l : List Char) : List Char := l.takeWhile (fun c => !isTermC c)

/-- Transcript event type tags written by the relay server
(`src/server/server.js`). -/
inductive EvType
  | COMMAND
  | REPL_COMMAND
  | OUTPUT
  | ERROR
  | SYSTEM
  | INPUT
deriving DecidableEq, Repr

/-- One transcript event as appended by the relay server: a type tag and a
text payload. -/
structure Event where
  type : EvType
  payload : List Char
deriving DecidableEq, Repr

/-- Per-session detector state: the entries of the global maps
`commandBuffers`, `pendingCommands` and `replEnvironments` of
`src/server/server.js` for one session id (`none` = key absent). -/
structure SessSt where
  buffer : Option (List Char)
  pending : Option Bool
  repl : Option (List Char)
deriving DecidableEq, Repr

/-- Fresh session state: no command buffer, no pending flag, and the given
REPL tag. -/
def freshSt (repl : Option (List Char)) : SessSt := ⟨none, none, repl⟩

/-- Event type chosen by the detector: `REPL_COMMAND` when a REPL tag is set
for the session, `COMMAND` otherwise. -/
def cmdType (repl : Option (List Char)) : EvType :=
  if repl.isSome then .REPL_COMMAND else .COMMAND

/-- Embedding of the command-buffer manipulation of `handleTerminalInput`
(`src/server/server.js` lines 284-380).  The REPL and shell branches are
kept separate as in the source; they differ only in the event type tag.
Returns the updated state and the transcript events appended by the call. -/
def inputDetectorStep (st : SessSt) (data : List Char) : SessSt × List Event :=
  let currentBuffer := st.buffer.getD []
  let isReplEnvironment := st.repl.isSome
  let hasEnterKey := containsL ['\r'] data || containsL ['\n'] data
  if isReplEnvironment then
    if hasEnterKey then
      let parts := jsSplit isTermC data
      let buf :=
        if (parts.headD []).isEmpty then currentBuffer
        else currentBuffer ++ parts.headD []
      let evs :=
        if (jsTrim buf).isEmpty then []
        else [⟨.REPL_COMMAND, jsTrim buf⟩]
      let pending' := if (jsTrim buf).isEmpty then st.pending else some false
      (⟨some ((parts.drop 1).headD []), pending', st.repl⟩, evs)
    else if data = ['\x08'] || data = ['\x7f'] then
      (⟨some currentBuffer.dropLast, st.pending, st.repl⟩, [])
    else
      (⟨some (currentBuffer ++ data), some true, st.repl⟩, [])
  else
    if hasEnterKey then
      let parts := jsSplit isTermC data
      let buf :=
        if (parts.headD []).isEmpty then currentBuffer
        else currentBuffer ++ parts.headD []
      let evs :=
        if (jsTrim buf).isEmpty then []
        else [⟨.COMMAND, jsTrim buf⟩]
      let pending' := if (jsTrim buf).isEmpty then st.pending else some false
      (⟨some ((parts.drop 1).headD []), pending', st.repl⟩, evs)
    else if data = ['\x08'] || data = ['\x7f'] then
      (⟨some currentBuffer.dropLast, st.pending, st.repl⟩, [])
    else
      (⟨some (currentBuffer ++ data), some true, st.repl⟩, [])

/-- Result of one `handleTerminalInput` call: new state, transcript events
appended, data actually written to the transport (none when the session was
not connected or the write threw), and whether an `error` message was sent
back to the requesting client. -/
structure InputResult where
  st : SessSt
  appended : List Event
  wroteData : Option (List Char)
  errorToClient : Bool
deriving DecidableEq, Repr

/-- Embedding of `handleTerminalInput` (`src/server/server.js` lines
276-388).  `connected` models `session && session.stream`; `writeOk` models
whether `session.stream.write(data)` succeeds (a throwing write is caught
and answered with an `error` event to the client; the buffer and transcript
mutations made before the write are not rolled back). -/
def handleTerminalInput (connected writeOk : Bool) (st : SessSt)
    (data : List Char) : InputResult :=
  if !connected then ⟨st, [], none, true⟩
  else
    let r := inputDetectorStep st data
    if writeOk then ⟨r.1, r.2, some data, false⟩
    else ⟨r.1, r.2, none, true⟩

/-- Feed a sequence of keystroke chunks to a connected session with a
healthy transport, collecting all transcript events the detector appends. -/
def runChunks (st : SessSt) : List (List Char) → SessSt × List Event
  | [] => (st, [])
  | d :: rest =>
    let r := handleTerminalInput true true st d
    let rec' := runChunks r.st rest
    (rec'.1, r.appended ++ rec'.2)

/-- Embedding of the detector-related part of `cleanupSession`
(`src/server/server.js` lines 705-740): flush a pending incomplete command
to the transcript and delete the command buffer (inside the pending branch
only, as in the source), then clear the pending flag and the REPL state.
Returns the events appended during teardown and the resulting state. -/
def cleanupSession (st : SessSt) : List Event × SessSt :=
  match st.buffer with
  | none => ([], ⟨none, none, none⟩)
  | some remainingBuffer =>
    if st.pending.getD false then
      let evs :=
        if !remainingBuffer.isEmpty && !(jsTrim remainingBuffer).isEmpty then
          [⟨cmdType st.repl, jsTrim remainingBuffer ++ (" (incomplete)").data⟩]
        else []
      (evs, ⟨none, none, none⟩)
    else ([], ⟨some remainingBuffer, none, none⟩)

/-- Escaping applied by `appendToTranscript` (`src/lib/transcriptStore.js`
line 63 and `src/server/server.js` line 102): carriage returns become the
two characters backslash-r, then newlines become backslash-n. -/
def encodeStored (data : List Char) : List Char :=
  replaceOne '\n' ['\\', 'n'] (replaceOne '\r' ['\\', 'r'] data)

/-- The single storage line produced for one transcript event:
`[timestamp] [source] escaped-data`. -/
def eventLine (timestamp source data : List Char) : List Char :=
  ['['] ++ timestamp ++ ("] [").data ++ source ++ ("] ").data ++ encodeStored data

/-- Embedding of `appendToTranscript` (`src/lib/transcriptStore.js` lines
53-75): append the formatted event line plus a newline to the transcript
file contents. -/
def appendToTranscript (file timestamp source data : List Char) : List Char :=
  file ++ eventLine timestamp source data ++ ['\n']

/-- Decoding applied by the cleaning passes (`formatTranscript` line 158 and
`getCleanTranscriptContent` line 891): backslash-r becomes a carriage
return, then backslash-n becomes a newline. -/
def decodeContent (content : List Char) : List Char :=
  replaceTwo '\\' 'n' ['\n'] (replaceTwo '\\' 'r' ['\r'] content)

/-- The last line of the raw transcript before the trailing newline: raw
contents end with a newline, so splitting on newlines yields a final empty
segment, which is dropped. -/
def lastEventLine (raw : List Char) : Option (List Char) :=
  ((jsSplit (fun c => c = '\n') raw).dropLast).getLast?

/-- ASCII letter, both cases (the `i`-flagged regex class `[a-z]`). -/
def isAsciiLetter (c : Char) : Bool :=
  ('a'.toNat ≤ c.toNat && c.toNat ≤ 'z'.toNat) ||
  ('A'.toNat ≤ c.toNat && c.toNat ≤ 'Z'.toNat)

/-- ASCII digit. -/
def isDigitC (c : Char) : Bool := '0'.toNat ≤ c.toNat && c.toNat ≤ '9'.toNat

/-- Character of the regex class `[0-9:]` in the IRB prompt pattern. -/
def isDigitColon (c : Char) : Bool := isDigitC c || c = ':'

/-- Embedding of the regex test `/js>\s*$/`: the text, with trailing
whitespace stripped, ends in `js>`. -/
def matchJsPromptEnd (out : List Char) : Bool :=
  endsWithL ("js>").data (dropTrailingWs out)

/-- Embedding of the regex test `/irb\([0-9:]+\)[>*]\s*$/`: after stripping
trailing whitespace the text ends with `irb(`, one or more digits or
colons, `)`, and `>` or `*`.  Checked on the reversed list. -/
def matchIrbEnd (out : List Char) : Bool :=
  match (dropTrailingWs out).reverse with
  | c0 :: c1 :: rest =>
    (c0 = '>' || c0 = '*') && c1 = ')' &&
    (let ds := rest.takeWhile isDigitColon
     !ds.isEmpty && startsWithL ("(bri").data (rest.drop ds.length))
  | _ => false

/-- Embedding of the regex test `/scala>\s*$/`. -/
def matchScalaEnd (out : List Char) : Bool :=
  endsWithL ("scala>").data (dropTrailingWs out)

/-- Embedding of the regex test `/ghci>\s*$/`. -/
def matchGhciEnd (out : List Char) : Bool :=
  endsWithL ("ghci>").data (dropTrailingWs out)

/-- Embedding of the regex test `/[$#%>]\s*$/`: after stripping trailing
whitespace the text ends in one of `$`, `#`, `%`, `>`. -/
def shellPromptEnd (out : List Char) : Bool :=
  match (dropTrailingWs out).getLast? with
  | some c => c = '$' || c = '#' || c = '%' || c = '>'
  | none => false

/-- Character of the regex class `[a-z0-9\-\.]` under the `i` flag. -/
def isHostChar (c : Char) : Bool :=
  isAsciiLetter c || isDigitC c || c = '-' || c = '.'

/-- Match of `/[a-z]+@[a-z0-9\-\.]+:[~\/][^\s\n]*[$#%]/i` anchored at the
start of `l`: a run of letters, `@`, a run of host characters, `:`, `~` or
`/`, then some non-whitespace characters one of which is `$`, `#` or `%`
(the greedy `[^\s\n]*` followed by `[$#%]` matches exactly when the maximal
non-whitespace run after the `[~\/]` character contains one of `$#%`). -/
def userHostAt (l : List Char) : Bool :=
  let r1 := l.takeWhile isAsciiLetter
  if r1.isEmpty then false
  else
    match l.drop r1.length with
    | '@' :: l2 =>
      let r2 := l2.takeWhile isHostChar
      if r2.isEmpty then false
      else
        match l2.drop r2.length with
        | ':' :: c :: l3 =>
          (c = '~' || c = '/') &&
          ((l3.takeWhile (fun d => !isWsJs d)).any
            (fun d => d = '$' || d = '#' || d = '%'))
        | _ => false
    | _ => false

/-- Unanchored search for the `user@host:path` prompt regex: a match may
start at any position of the text. -/
def userHostSearch : List Char → Bool
  | [] => false
  | c :: rest => userHostAt (c :: rest) || userHostSearch rest

/-- Whether a REPL tag is one of the five named-language tags that the
classifier protects from being cleared by a shell prompt. -/
def isNamedRepl (repl : Option (List Char)) : Bool :=
  repl = some ("python").data || repl = some ("node").data ||
  repl = some ("ruby").data || repl = some ("scala").data ||
  repl = some ("haskell").data

/-- Embedding of `detectReplEnvironment` (`src/server/server.js` lines
224-273) as a function from the session's current REPL-state entry and the
output chunk to the new REPL-state entry. -/
def detectReplEnvironment (repl : Option (List Char)) (out : List Char) :
    Option (List Char) :=
  if containsL (">>> ").data out || containsL ("... ").data out then
    some ("python").data
  else if containsL ("> ").data out &&
      (containsL ("node").data out || matchJsPromptEnd out) then
    some ("node").data
  else if matchIrbEnd out then some ("ruby").data
  else if matchScalaEnd out then some ("scala").data
  else if matchGhciEnd out then some ("haskell").data
  else if containsL ("╭").data out && containsL ("╰").data out then
    some ("interactive").data
  else if shellPromptEnd out || userHostSearch out then
    if isNamedRepl repl then repl else none
  else repl

/-- Character of the regex class `[0-9+\-*/() ]` guarding the demo node
REPL arithmetic evaluator. -/
def isArithChar (c : Char) : Bool :=
  isDigitC c || c = '+' || c = '-' || c = '*' || c = '/' || c = '(' ||
  c = ')' || c = ' '

/-- Embedding of the demo terminal's `stream.write` handler
(`createDemoTerminal`, `src/server/server.js` lines 534-627).  `evalArith`
models the JavaScript `eval` applied to arithmetic expressions in the demo
node REPL (`none` = `eval` threw); `nowStr` models `new Date().toString()`.
Returns the new REPL-state entry for the session and the list of `data`
chunks the stream emits in response. -/
def demoWrite (evalArith : List Char → Option (List Char))
    (nowStr : List Char) (repl : Option (List Char)) (data : List Char) :
    Option (List Char) × List (List Char) :=
  if containsL ['\r'] data then
    let command := jsTrim data
    if command = ("python").data || command = ("node").data then
      (some command,
        if command = ("python").data then
          [("\r\nPython 3.9.5 (Demo Mode)\r\n>>> ").data]
        else [("\r\nWelcome to Node.js v16.13.0 (Demo Mode)\r\n> ").data])
    else if command = ("exit").data && repl.isSome then
      (none,
        [("\r\nExiting ").data ++ repl.getD [] ++ ("...\r\n").data,
         ("\r\ndemo@localhost:~$ ").data])
    else if repl.isSome then
      (repl,
        if repl = some ("python").data then
          if command = ("print(\"hello\")").data then
            [("\r\nhello\r\n>>> ").data]
          else if startsWithL ("for ").data command then [("\r\n... ").data]
          else [("\r\n>>> ").data]
        else if repl = some ("node").data then
          if command = ("console.log(\"hello\")").data then
            [("\r\nhello\r\nundefined\r\n> ").data]
          else if startsWithL ("function").data command then
            [("\r\nundefined\r\n> ").data]
          else if !command.isEmpty && command.all isArithChar then
            match evalArith command with
            | some result => [("\r\n").data ++ result ++ ("\r\n> ").data]
            | none => [("\r\n> ").data]
          else [("\r\n").data ++ command ++ ("\r\n> ").data]
        else [])
    else if startsWithL ("ls").data command then
      (repl,
        [("\r\nDEMO MODE - Simulated directory listing:\r\n").data,
         ("file1.txt  file2.txt  folder1/  folder2/\r\n").data,
         ("\r\ndemo@localhost:~$ ").data])
    else if startsWithL ("pwd").data command then
      (repl, [("\r\n/home/demo\r\n").data, ("\r\ndemo@localhost:~$ ").data])
    else if startsWithL ("whoami").data command then
      (repl, [("\r\ndemo-user\r\n").data, ("\r\ndemo@localhost:~$ ").data])
    else if startsWithL ("date").data command then
      (repl,
        [("\r\n").data ++ nowStr ++ ("\r\n").data,
         ("\r\ndemo@localhost:~$ ").data])
    else if startsWithL ("echo").data command then
      (repl,
        [("\r\n").data ++ command.drop 5 ++ ("\r\n").data,
         ("\r\ndemo@localhost:~$ ").data])
    else if startsWithL ("help").data command then
      (repl,
        [("\r\nDEMO MODE - Available commands:\r\n").data,
         ("ls, pwd, whoami, date, echo, help, python, node\r\n").data,
         ("\r\ndemo@localhost:~$ ").data])
    else if !command.isEmpty then
      (repl,
        [("\r\nCommand not found: ").data ++ command ++
           ("\r\nType \x27help\x27 to see available commands.\r\n").data,
         ("\r\ndemo@localhost:~$ ").data])
    else (repl, [("\r\ndemo@localhost:~$ ").data])
  else (repl, [data])

/-- Rolling output buffer limit of the demo stream handler
(`src/server/server.js` line 660). -/
def demoOutputBufferLimit : Nat := 10000

/-- Result of sending one input chunk to a joined demo session: new
detector state, new rolling output buffer, transcript events appended
(commands from the detector, then one `OUTPUT` event per emitted chunk),
and the `output` messages broadcast to the attached clients. -/
structure DemoStep where
  st : SessSt
  outputBuffer : List Char
  appended : List Event
  broadcasts : List (List Char)
deriving DecidableEq, Repr

/-- Embedding of the demo-session input path: `handleTerminalInput` runs
the command-boundary detector and writes the chunk to the demo stream;
`createDemoTerminal`'s write handler responds with emitted chunks; the
demo `data` handler (`src/server/server.js` lines 656-664) appends each
emitted chunk to the transcript as `OUTPUT`, extends the rolling buffer
(keeping the last 10000 characters), and broadcasts it to the clients. -/
def demoInput (evalArith : List Char → Option (List Char))
    (nowStr : List Char) (st : SessSt) (outputBuffer : List Char)
    (data : List Char) : DemoStep :=
  let r := handleTerminalInput true true st data
  match r.wroteData with
  | none => ⟨r.st, outputBuffer, r.appended, []⟩
  | some d =>
    let w := demoWrite evalArith nowStr r.st.repl d
    let st' : SessSt := ⟨r.st.buffer, r.st.pending, w.1⟩
    let outBuf := w.2.foldl
      (fun b e =>
        let b' := b ++ e
        if b'.length > demoOutputBufferLimit then
          b'.drop (b'.length - demoOutputBufferLimit)
        else b')
      outputBuffer
    ⟨st', outBuf, r.appended ++ w.2.map (fun e => ⟨.OUTPUT, e⟩), w.2⟩

/-- The end-to-end demo scenario of the spec: a joined demo session at the
shell prompt receives the single input chunk `ls\r`. -/
def demoLsScenario : DemoStep :=
  demoInput (fun _ => none) [] (freshSt none) [] ("ls\r").data

/-- JavaScript truthiness of an optional string request field (absent and
empty string are falsy). -/
def jsTruthy (o : Option (List Char)) : Bool :=
  match o with
  | none => false
  | some l => !l.isEmpty

/-- Request body of `POST /api/sessions` (`src/server/server.js` line 981):
each field is optional; `demoMode` is coerced to a boolean with `!!`. -/
structure CreateParams where
  host : Option (List Char)
  username : Option (List Char)
  authMethod : Option (List Char)
  password : Option (List Char)
  privateKey : Option (List Char)
  demoMode : Bool
deriving DecidableEq, Repr

/-- Outcome of session creation: a 400 validation error or a 201 with the
generated session id. -/
inductive CreateResult
  | validationError (msg : List Char)
  | created (sessionId : List Char)
deriving DecidableEq, Repr

/-- Embedding of the validation and success path of `POST /api/sessions`
(`src/server/server.js` lines 979-1031).  `sessionId` stands for the value
produced by `generateSessionId()`. -/
def createSessionEndpoint (p : CreateParams) (sessionId : List Char) :
    CreateResult :=
  if !jsTruthy p.host || !jsTruthy p.username then
    .validationError ("Host and username are required").data
  else if p.authMethod = some ("password").data && !jsTruthy p.password then
    .validationError ("Password is required for password authentication").data
  else if p.authMethod = some ("key").data && !jsTruthy p.privateKey &&
      !p.demoMode then
    .validationError ("Private key is required for key authentication").data
  else .created sessionId

/-- Whether a session-creation outcome is a validation error. -/
def isValidationError : CreateResult → Bool
  | .validationError _ => true
  | .created _ => false

/-- Validation-failure condition in the words of the specification claim:
host or username missing, or password auth without a password, or key auth
without a private key (no mention of demo mode). -/
def claimValidationFails (p : CreateParams) : Bool :=
  !jsTruthy p.host || !jsTruthy p.username ||
  (p.authMethod = some ("password").data && !jsTruthy p.password) ||
  (p.authMethod = some ("key").data && !jsTruthy p.privateKey)

/-- Value held for one session in the standalone server's in-memory
`sessions` Map (`src/server/server.js`); only the presence of the transport
handles matters to the delete endpoint. -/
structure SessionRec where
  streamOpen : Bool
  clientOpen : Bool
deriving DecidableEq, Repr

/-- The standalone server's registry, a JS `Map` from session id to session
object (`const sessions = new Map()` in `src/server/server.js`), embedded
as an association list. -/
abbrev SessionsMap := List (List Char × SessionRec)

/-- JS `Map.prototype.has` on the server's `sessions` map. -/
def sessionsHas (sessions : SessionsMap) (sid : List Char) : Bool :=
  (sessions.find? (fun e => e.1 == sid)).isSome

/-- JS `Map.prototype.delete` on the server's `sessions` map (the map after
the deletion; a `Map` holds at most one entry per key). -/
def sessionsDelete (sessions : SessionsMap) (sid : List Char) : SessionsMap :=
  sessions.filter (fun e => !(e.1 == sid))

/-- One record of the lowdb `sessions` array of `lib/sessionStore.js` (the
session-store module bundled with `src/pages/keys.js`): each persisted
record carries its own `id` field.  `setSession` strips the
non-serializable `stream` and `client` handles before persisting, so they
appear here only as presence flags. -/
structure StoredSession where
  id : List Char
  streamOpen : Bool
  clientOpen : Bool
deriving DecidableEq, Repr

/-- The lowdb store of `lib/sessionStore.js`: the `sessions` array kept in
`ssh_sessions.json`. -/
abbrev Registry := List StoredSession

/-- Embedding of `getSession` (`lib/sessionStore.js`):
`db.get('sessions').find({ id: sessionId }).value()` returns the first
stored record whose `id` field equals the given id, or `undefined`. -/
def getSession (store : Registry) (sessionId : List Char) :
    Option StoredSession :=
  store.find? (fun s => s.id == sessionId)

/-- Embedding of `deleteSession` (`lib/sessionStore.js`):
`db.get('sessions').remove({ id: sessionId }).write()` — lodash `remove`
drops every record whose `id` field equals the given id. -/
def deleteSession (store : Registry) (sessionId : List Char) : Registry :=
  store.filter (fun s => !(s.id == sessionId))

/-- Embedding of `setSession` (`lib/sessionStore.js`): a copy of the data
with the `stream` and `client` handles deleted is prepared; if a record
with the id already exists, lodash `assign` merges the cleaned fields into
that first record (its `stream`/`client` slots, absent from the cleaned
copy, are left as they were), otherwise the cleaned record is pushed onto
the array. -/
def setSession : Registry → List Char → StoredSession → Registry
  | [], _, sessionData =>
    [{ sessionData with streamOpen := false, clientOpen := false }]
  | e :: rest, sessionId, sessionData =>
    if e.id == sessionId then
      { sessionData with streamOpen := e.streamOpen,
                         clientOpen := e.clientOpen } :: rest
    else e :: setSession rest sessionId sessionData

/-- HTTP-style response of the session delete/terminate surfaces. -/
structure ApiResponse where
  status : Nat
  success : Bool
  error : Option (List Char)
  message : Option (List Char)
deriving DecidableEq, Repr

/-- Embedding of `terminateSession` (`DELETE /api/terminal`, socket API
lines 597-638): missing or empty id is a 400; an absent session answers
200 success with a `Session not found or already terminated` message;
a present session is cleaned up (errors swallowed) and removed, 200. -/
def terminateSession (store : Registry) (sessionId : Option (List Char)) :
    ApiResponse × Registry :=
  match sessionId with
  | none => (⟨400, false, some ("Session ID is required").data, none⟩, store)
  | some sid =>
    if sid.isEmpty then
      (⟨400, false, some ("Session ID is required").data, none⟩, store)
    else
      match getSession store sid with
      | none =>
        (⟨200, true, none,
          some ("Session not found or already terminated").data⟩, store)
      | some _ => (⟨200, true, none, none⟩, deleteSession store sid)

/-- Embedding of `DELETE /api/sessions/:sessionId`
(`src/server/server.js` lines 1034-1055): `!sessions.has(sessionId)`
answers a 404 with an error body; a present one is cleaned up and deleted
from the in-memory map, 200.  (The `cleanupSession` call also clears the
detector maps, modelled separately by `cleanupSession` above.) -/
def deleteSessionEndpoint (sessions : SessionsMap) (sessionId : List Char) :
    ApiResponse × SessionsMap :=
  if !sessionsHas sessions sessionId then
    (⟨404, false, some ("Session not found").data, none⟩, sessions)
  else (⟨200, true, none, none⟩, sessionsDelete sessions sessionId)

/-- Character of the regex class `[A-Z_]` (transcript event type tags). -/
def isTypeChar (c : Char) : Bool :=
  ('A'.toNat ≤ c.toNat && c.toNat ≤ 'Z'.toNat) || c = '_'

/-- A raw transcript event as parsed by the readers: timestamp text, type
tag text, and content text. -/
structure RawEvent where
  ts : List Char
  ty : List Char
  content : List Char
deriving DecidableEq, Repr

/-- Embedding of the event-line regex
`^\[([^\]]+)\] \[([A-Z_]+)\] (.*)$` shared by both transcript readers. -/
def parseEventLine (line : List Char) : Option RawEvent :=
  match line with
  | '[' :: rest =>
    let ts := rest.takeWhile (fun c => !(c = ']'))
    if ts.isEmpty then none
    else
      match rest.drop ts.length with
      | ']' :: ' ' :: '[' :: rest2 =>
        let ty := rest2.takeWhile isTypeChar
        if ty.isEmpty then none
        else
          match rest2.drop ty.length with
          | ']' :: ' ' :: content => some ⟨ts, ty, content⟩
          | _ => none
      | _ => none
  | _ => none

/-- Event record used by `getCleanTranscriptContent`: a formatted
(localized) timestamp string, the type tag, and the raw content. -/
structure CleanEvent where
  fts : List Char
  ty : List Char
  content : List Char
deriving DecidableEq, Repr

/-- Embedding of the collection pass of `getCleanTranscriptContent`
(`src/server/server.js` lines 842-868): trim each line, skip blank and
header lines and lines that do not parse, skip `INPUT` events, and record
the remaining events keyed by their formatted timestamp.  `fmtTs` models
`new Date(timestamp).toLocaleString()`. -/
def collectCleanEvents (fmtTs : List Char → List Char) :
    List (List Char) → List CleanEvent
  | [] => []
  | line :: rest =>
    let l := jsTrim line
    if l.isEmpty || startsWithL ['#'] l then collectCleanEvents fmtTs rest
    else
      match parseEventLine l with
      | none => collectCleanEvents fmtTs rest
      | some e =>
        if e.ty = ("INPUT").data then collectCleanEvents fmtTs rest
        else ⟨fmtTs e.ts, e.ty, e.content⟩ :: collectCleanEvents fmtTs rest

/-- The same collection pass without the `INPUT` skip; stated from the
specification claim for comparison with `collectCleanEvents`. -/
def collectCleanEventsAll (fmtTs : List Char → List Char) :
    List (List Char) → List CleanEvent
  | [] => []
  | line :: rest =>
    let l := jsTrim line
    if l.isEmpty || startsWithL ['#'] l then collectCleanEventsAll fmtTs rest
    else
      match parseEventLine l with
      | none => collectCleanEventsAll fmtTs rest
      | some e => ⟨fmtTs e.ts, e.ty, e.content⟩ :: collectCleanEventsAll fmtTs rest

/-- Insert a value into the bucket of `key`, preserving first-appearance
order of keys and insertion order within a bucket (JavaScript `Map`). -/
def groupInsert (key : List Char) (v : List Char × List Char) :
    List (List Char × List (List Char × List Char)) →
    List (List Char × List (List Char × List Char))
  | [] => [(key, [v])]
  | (k, vs) :: rest =>
    if k == key then (k, vs ++ [v]) :: rest
    else (k, vs) :: groupInsert key v rest

/-- Build the `eventsByTimestamp` map: buckets of `(type, content)` pairs
keyed by formatted timestamp. -/
def groupByTs (evs : List CleanEvent) :
    List (List Char × List (List Char × List Char)) :=
  evs.foldl (fun g e => groupInsert e.fts (e.ty, e.content) g) []

/-- Stable insertion of a key into an ascending list ordered by `dateVal`
(models the stable JavaScript sort by `new Date(a) - new Date(b)`). -/
def insertByKey (dateVal : List Char → Int) (x : List Char) :
    List (List Char) → List (List Char)
  | [] => [x]
  | y :: ys =>
    if dateVal x ≤ dateVal y then x :: y :: ys
    else y :: insertByKey dateVal x ys

/-- Stable ascending sort of the timestamp keys by `dateVal`. -/
def sortKeys (dateVal : List Char → Int) (ks : List (List Char)) :
    List (List Char) :=
  ks.foldr (insertByKey dateVal) []

/-- Rendering of one event inside a timestamp block
(`src/server/server.js` lines 881-898): commands are stripped of `\r`/`\n`
escapes and prefixed with a dollar marker; output-like events are decoded
and `ERROR`/`SYSTEM` are bracket-labelled; blank results are dropped. -/
def renderCleanEvent (e : List Char × List Char) : List (List Char) :=
  if e.1 = ("COMMAND").data || e.1 = ("REPL_COMMAND").data then
    let cleanCommand := replaceTwo '\\' 'n' [] (replaceTwo '\\' 'r' [] e.2)
    if (jsTrim cleanCommand).isEmpty then []
    else [("$ ").data ++ jsTrim cleanCommand]
  else if e.1 = ("OUTPUT").data || e.1 = ("ERROR").data ||
      e.1 = ("SYSTEM").data then
    let cleanContent := decodeContent e.2
    if (jsTrim cleanContent).isEmpty then []
    else
      let pre :=
        if e.1 = ("ERROR").data || e.1 = ("SYSTEM").data then
          ['['] ++ e.1 ++ ("] ").data
        else []
      [pre ++ cleanContent]
  else []

/-- Embedding of the output pass of `getCleanTranscriptContent`
(`src/server/server.js` lines 870-905): render each nonempty timestamp
group, in `dateVal` order, as a bracketed timestamp line, its rendered
events, and a blank separator; join and trim. -/
def buildClean (dateVal : List Char → Int) (evs : List CleanEvent) :
    List Char :=
  let groups := groupByTs evs
  let sortedKeys := sortKeys dateVal (groups.map (fun g => g.1))
  let cleanLines := sortedKeys.foldl
    (fun acc ts =>
      match (groups.find? (fun g => g.1 == ts)).map (fun g => g.2) with
      | some evs2 =>
        if evs2.isEmpty then acc
        else
          acc ++ [['['] ++ ts ++ [']']] ++
            evs2.foldl (fun a e => a ++ renderCleanEvent e) [] ++ [[]]
      | none => acc)
    []
  jsTrim (List.intercalate ['\n'] cleanLines)

/-- Embedding of `getCleanTranscriptContent` (`src/server/server.js` lines
831-906), parameterized by the timestamp formatter and the timestamp value
function used for ordering. -/
def getCleanTranscriptContent (fmtTs : List Char → List Char)
    (dateVal : List Char → Int) (raw : List Char) : List Char :=
  if raw.isEmpty then []
  else buildClean dateVal (collectCleanEvents fmtTs (jsSplit (fun c => c = '\n') raw))

/-- Header information extracted by pass 1 of `formatTranscript`. -/
structure HeaderInfo where
  titleLines : List (List Char)
  host : Option (List Char)
  user : Option (List Char)
  started : Option (List Char)
deriving DecidableEq, Repr

/-- Append a continuation line to the content of the last parsed event
(pass 1 of `formatTranscript`, lines 160-164 of the formatter). -/
def appendToLastEvent (evs : List RawEvent) (line : List Char) :
    List RawEvent :=
  match evs.getLast? with
  | none => evs
  | some e => evs.dropLast ++ [⟨e.ts, e.ty, e.content ++ '\n' :: line⟩]

/-- One step of pass 1 of `formatTranscript` (formatter lines 137-165):
header lines within the first ten lines contribute title/host/user/started
information; blank lines are skipped; event lines are parsed with their
content decoded; other lines are appended to the previous event. -/
def fmtParseStep (i : Nat) (acc : HeaderInfo × List RawEvent)
    (line : List Char) : HeaderInfo × List RawEvent :=
  if startsWithL ['#'] line then
    if i < 10 then
      let h := acc.1
      let h :=
        { h with
          titleLines :=
            if startsWithL ("# Terminal Transcript").data line then
              h.titleLines ++ [line]
            else h.titleLines }
      let h :=
        if startsWithL ("# Host: ").data line then
          { h with host := some (jsTrim (line.drop 8)) }
        else h
      let h :=
        if startsWithL ("# User: ").data line then
          { h with user := some (jsTrim (line.drop 8)) }
        else h
      let h :=
        if startsWithL ("# Started: ").data line then
          { h with started := some (jsTrim (line.drop 11)) }
        else h
      (h, acc.2)
    else acc
  else if (jsTrim line).isEmpty then acc
  else
    match parseEventLine line with
    | some e => (acc.1, acc.2 ++ [⟨e.ts, e.ty, decodeContent e.content⟩])
    | none =>
      if acc.2.isEmpty then acc
      else (acc.1, appendToLastEvent acc.2 line)

/-- Pass 1 of `formatTranscript` over all lines, tracking the line index. -/
def fmtParseGo (i : Nat) (acc : HeaderInfo × List RawEvent) :
    List (List Char) → HeaderInfo × List RawEvent
  | [] => acc
  | line :: rest => fmtParseGo (i + 1) (fmtParseStep i acc line) rest

/-- Pass 1 of `formatTranscript`: header information and parsed events. -/
def fmtParse (lines : List (List Char)) : HeaderInfo × List RawEvent :=
  fmtParseGo 0 (⟨[], none, none, none⟩, []) lines

/-- The header lines emitted by `formatTranscript` (formatter lines
167-174): any title lines, then `# user@host` when both are set and
nonempty, then the start time, then a blank line. -/
def fmtHeaderLines (h : HeaderInfo) : List (List Char) :=
  h.titleLines ++
  (match h.user, h.host with
   | some u, some ho =>
     if !u.isEmpty && !ho.isEmpty then [("# ").data ++ u ++ ['@'] ++ ho]
     else []
   | _, _ => []) ++
  (match h.started with
   | some s => if !s.isEmpty then [("# Started: ").data ++ s] else []
   | none => []) ++
  [[]]

/-- The command/output block accumulated by pass 2 of `formatTranscript`. -/
structure FmtBlock where
  command : Option (List Char)
  outputLines : List (List Char)
  timestamp : Option (List Char)
  isRepl : Bool
  commandTimestamp : Option (List Char)
deriving DecidableEq, Repr

/-- The empty initial block of pass 2. -/
def initialBlock : FmtBlock := ⟨none, [], none, false, none⟩

/-- Replace the first occurrence of `pat` in the subject with `rep`
(JavaScript `String.prototype.replace` with a string pattern). -/
def replaceFirst (pat rep : List Char) : List Char → List Char
  | [] => if startsWithL pat [] then rep else []
  | c :: rest =>
    if startsWithL pat (c :: rest) then rep ++ (c :: rest).drop pat.length
    else c :: replaceFirst pat rep rest

/-- Generic global regex deletion: `m` reports the length of a match
anchored at the current position; matches are removed left to right without
overlap as by `String.prototype.replace` with a `g` flag and an empty
replacement. -/
def removeMatches (m : List Char → Option Nat) : List Char → List Char
  | [] => []
  | c :: rest =>
    match m (c :: rest) with
    | some n => removeMatches m ((c :: rest).drop (max n 1))
    | none => c :: removeMatches m rest
termination_by l => l.length
decreasing_by
  all_goals simp only [List.length_drop, List.length_cons]
  all_goals omega

/-- Character of the regex class `[0-9;?]` (CSI parameter bytes). -/
def isCsiParam (c : Char) : Bool := isDigitC c || c = ';' || c = '?'

/-- Match of `/\x1b\[[0-9;?]*[a-zA-Z]/` at the current position. -/
def matchCsiAt : List Char → Option Nat
  | '\x1b' :: '[' :: rest =>
    let ps := rest.takeWhile isCsiParam
    match rest.drop ps.length with
    | c :: _ => if isAsciiLetter c then some (2 + ps.length + 1) else none
    | [] => none
  | _ => none

/-- Match of `/\x1b\][^\x07]*\x07/` at the current position. -/
def matchOscAt : List Char → Option Nat
  | '\x1b' :: ']' :: rest =>
    let body := rest.takeWhile (fun c => !(c = '\x07'))
    match rest.drop body.length with
    | _ :: _ => some (2 + body.length + 1)
    | [] => none
  | _ => none

/-- Match of `/\x1b[()][0-9A-B]/` at the current position. -/
def matchCharsetAt : List Char → Option Nat
  | '\x1b' :: p :: d :: _ =>
    if (p = '(' || p = ')') && (isDigitC d || d = 'A' || d = 'B') then some 3
    else none
  | _ => none

/-- Character of the deleted control class
`[\x00-\x08\x0B\x0C\x0E-\x1F\x7F]`. -/
def isOtherC0 (c : Char) : Bool :=
  c.toNat ≤ 8 || c = '\x0b' || c = '\x0c' ||
  (14 ≤ c.toNat && c.toNat ≤ 31) || c = '\x7f'

/-- Carriage-return overwrite simulation for one physical line (formatter
lines 301-311): each `\r`-separated part overwrites the start of the
accumulated line. -/
def crOverwriteLine (line : List Char) : List Char :=
  let parts := jsSplit (fun c => c = '\r') line
  (parts.drop 1).foldl (fun cur part => part ++ cur.drop part.length)
    (parts.headD [])

/-- Carriage-return overwrite simulation over all lines. -/
def crOverwrite (s : List Char) : List Char :=
  List.intercalate ['\n']
    ((jsSplit (fun c => c = '\n') s).map crOverwriteLine)

/-- Length of the echo match at the start of the string.  The source builds
`new RegExp(`+"`^[\\s\\n]*${commandPattern}\\r?\\n?`"+`)` inside an untagged
template literal, where the two-character escape `\s` denotes the plain
letter `s`: the class is `[s\n]`, i.e. the letter `s` or a newline.  The
greedy class star backtracks, so the largest viable skip is used, then the
escaped (hence literal) command, then an optional carriage return and an
optional newline. -/
def matchEchoLen (cmd s : List Char) : Option Nat :=
  let run := s.takeWhile (fun c => c = 's' || c = '\n')
  match (List.range (run.length + 1)).reverse.find?
      (fun k => startsWithL cmd (s.drop k)) with
  | none => none
  | some k =>
    let rest := s.drop (k + cmd.length)
    let cr := if startsWithL ['\r'] rest then 1 else 0
    let rest2 := rest.drop cr
    let nl := if startsWithL ['\n'] rest2 then 1 else 0
    some (k + cmd.length + cr + nl)

/-- Echo removal (formatter lines 317-322): when a preceding command is set
and truthy, remove the first anchored echo match. -/
def stripEcho (precedingCommand : Option (List Char)) (s : List Char) :
    List Char :=
  match precedingCommand with
  | none => s
  | some c =>
    if c.isEmpty then s
    else
      match matchEchoLen c s with
      | none => s
      | some n => s.drop n

/-- Match of the closing part `\s*╰[─]+╯\s*$` of the box regex at a
line-start position; the trailing greedy `\s*` backtracks to a position at
a line end (`$` with the `m` flag: end of string or before a newline). -/
def matchBoxCloseAt (s : List Char) : Option Nat :=
  let w := s.takeWhile isWsJs
  match s.drop w.length with
  | '╰' :: rest =>
    let ds := rest.takeWhile (fun c => c = '─')
    if ds.isEmpty then none
    else
      match rest.drop ds.length with
      | '╯' :: rest2 =>
        let wr := rest2.takeWhile isWsJs
        match (List.range (wr.length + 1)).reverse.find?
            (fun k =>
              (rest2.drop k).isEmpty || (rest2.drop k).headD ' ' = '\n') with
        | some k => some (w.length + 1 + ds.length + 1 + k)
        | none => none
      | _ => none
  | _ => none

/-- Lazy scan `[\s\S]*?` of the box regex: the earliest position at a line
start (`^` with the `m` flag) where the closing part matches; returns the
number of characters consumed including the closing match. -/
def findBoxClose (prev : Char) : List Char → Option Nat
  | [] => none
  | c :: rest =>
    if prev = '\n' then
      match matchBoxCloseAt (c :: rest) with
      | some n => some n
      | none => (findBoxClose c rest).map (fun n => n + 1)
    else (findBoxClose c rest).map (fun n => n + 1)

/-- Match of the box regex `^\s*╭[─]+╮[\s\S]*?^\s*╰[─]+╯\s*$` at a
line-start position. -/
def matchBoxAt (s : List Char) : Option Nat :=
  let w := s.takeWhile isWsJs
  match s.drop w.length with
  | '╭' :: rest =>
    let ds := rest.takeWhile (fun c => c = '─')
    if ds.isEmpty then none
    else
      match rest.drop ds.length with
      | '╮' :: rest2 =>
        match findBoxClose '╮' rest2 with
        | some n => some (w.length + 1 + ds.length + 1 + n)
        | none => none
      | _ => none
  | _ => none

/-- Global multiline deletion: like `removeMatches` but the matcher only
applies at line starts (`^` with `gm` flags).  `atStart` records whether the
current position begins a line. -/
def gmRemoveMatches (m : List Char → Option Nat) (atStart : Bool) :
    List Char → List Char
  | [] => []
  | c :: rest =>
    if atStart then
      match m (c :: rest) with
      | some n =>
        let n' := max n 1
        gmRemoveMatches m (((c :: rest).take n').getLast? == some '\n')
          ((c :: rest).drop n')
      | none => c :: gmRemoveMatches m (c == '\n') rest
    else c :: gmRemoveMatches m (c == '\n') rest
termination_by l => l.length
decreasing_by
  all_goals simp only [List.length_drop, List.length_cons]
  all_goals omega

/-- Character of the regex class `[\w\-]`. -/
def isWordDash (c : Char) : Bool :=
  isAsciiLetter c || isDigitC c || c = '_' || c = '-'

/-- Character of the regex class `[\w\-\.]`. -/
def isWordDashDot (c : Char) : Bool := isWordDash c || c = '.'

/-- Character of the regex class `[\$#% G>]`. -/
def isPromptTailChar (c : Char) : Bool :=
  c = '$' || c = '#' || c = '%' || c = ' ' || c = 'G' || c = '>'

/-- Attempt of the tail `[\$#% G>]+ ` of the prompt regex at offset `a` of
`l3`: the largest tail-class run followed by a space (greedy plus with
backtracking). -/
def promptTailAt (l3 : List Char) (a : Nat) : Option Nat :=
  let rest := l3.drop a
  let bmax := rest.takeWhile isPromptTailChar
  match (List.range bmax.length).reverse.find?
      (fun bm1 => (rest.drop (bm1 + 1)).headD '\x00' = ' ') with
  | some bm1 => some (a + bm1 + 1 + 1)
  | none => none

/-- Greedy backtracking for `[^\$#%]*[\$#% G>]+ ` starting at `l3`: try the
largest skip `a` first and shrink on failure.  Returns the number of
characters matched from `l3`. -/
def findPromptTail (l3 : List Char) : Nat → Option Nat
  | 0 => promptTailAt l3 0
  | a + 1 =>
    match promptTailAt l3 (a + 1) with
    | some t => some t
    | none => findPromptTail l3 a

/-- Match of the prompt regex `^[\w\-]+@[\w\-\.]+:[^\$#%]*[\$#% G>]+ ` at a
line-start position. -/
def matchPromptAt (s : List Char) : Option Nat :=
  let r1 := s.takeWhile isWordDash
  if r1.isEmpty then none
  else
    match s.drop r1.length with
    | '@' :: l2 =>
      let r2 := l2.takeWhile isWordDashDot
      if r2.isEmpty then none
      else
        match l2.drop r2.length with
        | ':' :: l3 =>
          let amax := l3.takeWhile
            (fun c => !(c = '$' || c = '#' || c = '%'))
          (findPromptTail l3 amax.length).map
            (fun t => r1.length + 1 + r2.length + 1 + t)
        | _ => none
    | _ => none

/-- Whether a trimmed line matches `/^irb\(.*\)[>*]$/`. -/
def matchIrbLine (t : List Char) : Bool :=
  startsWithL ("irb(").data t && 6 ≤ t.length &&
  (t.getLast? == some '>' || t.getLast? == some '*') &&
  (t.dropLast.getLast? == some ')')

/-- Blanking of bare REPL prompt lines (formatter lines 330-335). -/
def blankReplPromptLines (s : List Char) : List Char :=
  List.intercalate ['\n']
    ((jsSplit (fun c => c = '\n') s).map (fun line =>
      let t := jsTrim line
      if t = (">>>").data || t = ("...").data || t = (">").data then []
      else if matchIrbLine t || t = ("scala>").data || t = ("ghci>").data
      then []
      else line))

/-- Embedding of the final `/\n\s*\n/g → "\n\n"` replacement (formatter
line 342): a newline, greedy whitespace backtracking to a final newline. -/
def collapseBlank : List Char → List Char
  | [] => []
  | c :: rest =>
    if c = '\n' then
      let wr := rest.takeWhile isWsJs
      match (List.range (wr.length + 1)).reverse.find?
          (fun k => (rest.drop k).headD '\x00' = '\n') with
      | some k => '\n' :: '\n' :: collapseBlank (rest.drop (k + 1))
      | none => c :: collapseBlank rest
    else c :: collapseBlank rest
termination_by l => l.length
decreasing_by
  all_goals simp only [List.length_drop, List.length_cons]
  all_goals omega

/-- Embedding of `cleanTerminalString` (formatter lines 288-345): ANSI and
control-character removal, carriage-return overwrite simulation, echo
removal, box and prompt deletion, REPL-prompt line blanking, and final
whitespace cleanup. -/
def cleanTerminalString (rawString : List Char)
    (precedingCommand : Option (List Char)) : List Char :=
  if rawString.isEmpty then []
  else
    let s1 := removeMatches matchCsiAt rawString
    let s2 := removeMatches matchOscAt s1
    let s3 := removeMatches matchCharsetAt s2
    let s4 := s3.filter (fun c => !isOtherC0 c)
    let s5 := crOverwrite s4
    let s6 := stripEcho precedingCommand s5
    let s7 := gmRemoveMatches matchBoxAt true s6
    let s8 := gmRemoveMatches matchPromptAt true s7
    let s9 := blankReplPromptLines s8
    collapseBlank (jsTrim s9)

/-- Keep only the slice from the first to the last line with nonblank
content (formatter lines 253-268). -/
def sliceContent (ls : List (List Char)) : List (List Char) :=
  let idxs := (List.range ls.length).filter
    (fun i => !(jsTrim (ls.getD i [])).isEmpty)
  match idxs.head?, idxs.getLast? with
  | some f, some l => (ls.drop f).take (l - f + 1)
  | _, _ => []

/-- Embedding of `processAndFormatBlock` (formatter lines 235-277). -/
def processAndFormatBlock (blk : FmtBlock) : List (List Char) :=
  let cmdLines :=
    if jsTruthy blk.command then
      let c := blk.command.getD []
      if startsWithL ("[INCOMPLETE]").data c then [c]
      else [(if blk.isRepl then (">>>").data else ("$").data) ++ [' '] ++ c]
    else []
  let combinedOutput := blk.outputLines.flatten
  let cleanedOutput := cleanTerminalString combinedOutput blk.command
  let outLines :=
    if !(jsTrim cleanedOutput).isEmpty then
      sliceContent (jsSplit (fun c => c = '\n') cleanedOutput)
    else []
  let blockLines := cmdLines ++ outLines
  if !blockLines.isEmpty &&
      (jsTruthy blk.command || !(jsTrim cleanedOutput).isEmpty) then
    blockLines ++ [[]]
  else blockLines

/-- One step of pass 2 of `formatTranscript` (formatter lines 180-213):
command events flush the current block and start a new one (incomplete
commands are marked); output-like events extend the current block; `INPUT`
events and unknown type tags are ignored. -/
def fmtPass2Step (acc : List (List Char) × FmtBlock) (e : RawEvent) :
    List (List Char) × FmtBlock :=
  if e.ty = ("COMMAND").data || e.ty = ("REPL_COMMAND").data then
    let lines' :=
      if jsTruthy acc.2.command || !acc.2.outputLines.isEmpty then
        acc.1 ++ processAndFormatBlock acc.2
      else acc.1
    let commandContent := jsTrim e.content
    if endsWithL (" (incomplete)").data commandContent then
      (lines',
        ⟨some (("[INCOMPLETE] ").data ++
            replaceFirst (" (incomplete)").data [] commandContent),
          [], some e.ts, false, none⟩)
    else
      (lines',
        ⟨some commandContent, [], some e.ts,
          e.ty = ("REPL_COMMAND").data, some e.ts⟩)
  else if e.ty = ("OUTPUT").data || e.ty = ("ERROR").data ||
      e.ty = ("SYSTEM").data then
    let pre :=
      if e.ty = ("ERROR").data then ("[ERROR] ").data
      else if e.ty = ("SYSTEM").data then ("[SYSTEM] ").data
      else []
    (acc.1, { acc.2 with outputLines := acc.2.outputLines ++ [pre ++ e.content] })
  else acc

/-- Pass 2 of `formatTranscript`: fold the events and flush the last
block. -/
def fmtPass2 (evs : List RawEvent) : List (List Char) :=
  let r := evs.foldl fmtPass2Step ([], initialBlock)
  if jsTruthy r.2.command || !r.2.outputLines.isEmpty then
    r.1 ++ processAndFormatBlock r.2
  else r.1

/-- Embedding of the `/\n{3,}/g → "\n\n"` replacement of pass 3 of
`formatTranscript` (formatter line 223). -/
def collapseNl3 : List Char → List Char
  | [] => []
  | c :: rest =>
    if c = '\n' then
      let run := rest.takeWhile (fun d => d = '\n')
      if 2 ≤ run.length then
        '\n' :: '\n' :: collapseNl3 (rest.drop run.length)
      else c :: collapseNl3 rest
    else c :: collapseNl3 rest
termination_by l => l.length
decreasing_by
  all_goals simp only [List.length_drop, List.length_cons]
  all_goals omega

/-- Assembly of `formatTranscript` from the parsed header and event list:
header lines, pass 2 block lines, joined, blank runs collapsed, trimmed. -/
def formatFromEvents (hdr : HeaderInfo) (evs : List RawEvent) : List Char :=
  jsTrim (collapseNl3
    (List.intercalate ['\n'] (fmtHeaderLines hdr ++ fmtPass2 evs)))

/-- Embedding of `formatTranscript` (the transcript formatter, lines
125-226). -/
def formatTranscript (raw : List Char) : List Char :=
  if raw.isEmpty then []
  else
    let p := fmtParse (jsSplit (fun c => c = '\n') raw)
    formatFromEvents p.1 p.2

/-!
## Supporting lemmas
-/

theorem getSession_deleteSession (store : Registry) (sid : List Char) :
    getSession (deleteSession store sid) sid = none := by
  unfold getSession deleteSession
  rw [List.find?_eq_none]
  intro x hx
  have hq := (List.mem_filter.mp hx).2
  simp only [Bool.not_eq_true'] at hq
  simp [hq]

theorem jsTrim_nil : jsTrim [] = [] := rfl

theorem containsL_singleton_iff (a : Char) (l : List Char) :
    containsL [a] l = true ↔ a ∈ l := by
  induction l with
  | nil => simp [containsL, startsWithL]
  | cons c cs ih =>
    simp [containsL, startsWithL, ih]
    try tauto

theorem hasEnter_false_iff (data : List Char) :
    (containsL ['\r'] data || containsL ['\n'] data) = false ↔
      countTerm data = 0 := by
  rw [Bool.or_eq_false_iff]
  unfold countTerm
  rw [List.countP_eq_zero]
  constructor
  · rintro ⟨h1, h2⟩ c hc
    rw [Bool.eq_false_iff] at h1 h2
    have hc1 : ¬ c = '\r' := fun he => h1 ((containsL_singleton_iff _ _).mpr (he ▸ hc))
    have hc2 : ¬ c = '\n' := fun he => h2 ((containsL_singleton_iff _ _).mpr (he ▸ hc))
    simp [isTermC, hc1, hc2]
  · intro h
    constructor <;> rw [Bool.eq_false_iff] <;> intro hc <;>
      have := h _ ((containsL_singleton_iff _ _).mp hc) <;> simp [isTermC] at this

theorem jsSplit_ne_nil (p : Char → Bool) (l : List Char) :
    jsSplit p l ≠ [] := by
  cases l with
  | nil => simp [jsSplit]
  | cons c rest =>
    unfold jsSplit
    cases h : jsSplit p rest with
    | nil => simp
    | cons s ss => by_cases hp : p c <;> simp [hp]

theorem jsSplit_sep (p : Char → Bool) (c : Char) (l : List Char)
    (h : p c = true) : jsSplit p (c :: l) = [] :: jsSplit p l := by
  cases hE : jsSplit p l with
  | nil => exact absurd hE (jsSplit_ne_nil p l)
  | cons s ss =>
    show (match jsSplit p l with
      | [] => [[]]
      | s :: ss => if p c = true then [] :: s :: ss else (c :: s) :: ss) = _
    rw [hE]
    simp [h]

theorem jsSplit_nonsep (p : Char → Bool) (c : Char) (l : List Char)
    (h : p c = false) :
    jsSplit p (c :: l) = (c :: (jsSplit p l).headD []) :: (jsSplit p l).tail := by
  cases hE : jsSplit p l with
  | nil => exact absurd hE (jsSplit_ne_nil p l)
  | cons s ss =>
    show (match jsSplit p l with
      | [] => [[]]
      | s :: ss => if p c = true then [] :: s :: ss else (c :: s) :: ss) = _
    rw [hE]
    simp [h]

theorem jsSplit_noSep (p : Char → Bool) (l : List Char)
    (h : l.countP p = 0) : jsSplit p l = [l] := by
  induction l with
  | nil => rfl
  | cons c rest ih =>
    rw [List.countP_cons] at h
    have hc : p c = false := by
      by_cases hp : p c <;> simp [hp] at h ⊢
    have hr : rest.countP p = 0 := by omega
    rw [jsSplit_nonsep p c rest hc, ih hr]
    rfl

theorem jsSplit_single (p : Char → Bool) (a : List Char) (t : Char)
    (b : List Char) (ha : a.countP p = 0) (ht : p t = true)
    (hb : b.countP p = 0) : jsSplit p (a ++ t :: b) = [a, b] := by
  induction a with
  | nil => rw [List.nil_append, jsSplit_sep p t b ht, jsSplit_noSep p b hb]
  | cons c a' ih =>
    rw [List.countP_cons] at ha
    have hc : p c = false := by
      by_cases hp : p c <;> simp [hp] at ha ⊢
    have ha' : a'.countP p = 0 := by omega
    rw [List.cons_append, jsSplit_nonsep p c _ hc, ih ha']
    rfl

theorem dropWhile_head_not (p : Char → Bool) (l : List Char) (t : Char)
    (b : List Char) (h : l.dropWhile p = t :: b) : p t = false := by
  induction l with
  | nil => simp at h
  | cons c rest ih =>
    rw [List.dropWhile_cons] at h
    by_cases hp : p c
    · simp [hp] at h
      exact ih h
    · simp [hp] at h
      rw [← h.1]
      simpa using hp

theorem countTerm_pos_decomp (d : List Char) (h : countTerm d ≠ 0) :
    ∃ a t b, d = a ++ t :: b ∧ isTermC t = true ∧ countTerm a = 0 := by
  have hsplit := List.takeWhile_append_dropWhile
    (p := fun c => !isTermC c) (l := d)
  have hne : d.dropWhile (fun c => !isTermC c) ≠ [] := by
    intro hnil
    rw [hnil, List.append_nil] at hsplit
    apply h
    unfold countTerm
    rw [List.countP_eq_zero]
    intro c hc
    have := List.mem_takeWhile_imp (hsplit ▸ hc)
    simp at this
    simp [this]
  cases hd : d.dropWhile (fun c => !isTermC c) with
  | nil => exact absurd hd hne
  | cons t b =>
    have ht : isTermC t = true := by
      have h2 := dropWhile_head_not (fun c => !isTermC c) d t b hd
      simpa using h2
    refine ⟨d.takeWhile (fun c => !isTermC c), t, b, ?_, ht, ?_⟩
    · rw [← hd]
      rw [hsplit]
    · unfold countTerm
      rw [List.countP_eq_zero]
      intro c hc
      have := List.mem_takeWhile_imp hc
      simp at this
      simp [this]

theorem takeNonTerm_append_noTerm (x y : List Char) (h : countTerm x = 0) :
    takeNonTerm (x ++ y) = x ++ takeNonTerm y := by
  induction x with
  | nil => simp
  | cons c x' ih =>
    unfold countTerm at h
    rw [List.countP_cons] at h
    have hc : isTermC c = false := by
      by_cases hp : isTermC c <;> simp [hp] at h ⊢
    have hx' : countTerm x' = 0 := by unfold countTerm; omega
    unfold takeNonTerm at *
    rw [List.cons_append, List.takeWhile_cons]
    simp [hc, ih hx']

theorem takeNonTerm_cons_term (t : Char) (y : List Char)
    (ht : isTermC t = true) : takeNonTerm (t :: y) = [] := by
  unfold takeNonTerm
  rw [List.takeWhile_cons]
  simp [ht]

theorem handleTerminalInput_true (st : SessSt) (data : List Char) :
    handleTerminalInput true true st data =
      ⟨(inputDetectorStep st data).1, (inputDetectorStep st data).2,
        some data, false⟩ := rfl

theorem inputDetectorStep_repl (st : SessSt) (data : List Char) :
    (inputDetectorStep st data).1.repl = st.repl := by
  simp only [inputDetectorStep]
  repeat' split
  all_goals rfl

theorem inputDetectorStep_append (st : SessSt) (data : List Char)
    (h : countTerm data = 0) (h1 : ¬data = ['\x08'])
    (h2 : ¬data = ['\x7f']) :
    inputDetectorStep st data =
      (⟨some (st.buffer.getD [] ++ data), some true, st.repl⟩, []) := by
  have hE : (containsL ['\r'] data || containsL ['\n'] data) = false :=
    (hasEnter_false_iff data).mpr h
  unfold inputDetectorStep
  by_cases hr : st.repl.isSome <;> simp [hE, h1, h2, hr]

theorem inputDetectorStep_no_events (st : SessSt) (data : List Char)
    (h : countTerm data = 0) : (inputDetectorStep st data).2 = [] := by
  have hE : (containsL ['\r'] data || containsL ['\n'] data) = false :=
    (hasEnter_false_iff data).mpr h
  unfold inputDetectorStep
  by_cases hr : st.repl.isSome <;>
    by_cases hb : (data = ['\x08'] || data = ['\x7f']) = true <;>
      simp [hE, hr, hb]

theorem buf_if_append (cb a : List Char) :
    (if a.isEmpty then cb else cb ++ a) = cb ++ a := by
  cases a <;> simp

theorem jsSplit_term_headD (a : List Char) (t : Char) (b : List Char)
    (ha : countTerm a = 0) (ht : isTermC t = true) :
    (jsSplit isTermC (a ++ t :: b)).headD [] = a := by
  induction a with
  | nil =>
    rw [List.nil_append, jsSplit_sep _ _ _ ht]
    rfl
  | cons c a' ih =>
    rw [countTerm, List.countP_cons] at ha
    have hc : isTermC c = false := by
      by_cases hp : isTermC c <;> simp [hp] at ha ⊢
    have ha' : countTerm a' = 0 := by unfold countTerm; omega
    rw [List.cons_append, jsSplit_nonsep _ _ _ hc]
    simp only [List.headD_cons]
    rw [ih ha']

theorem inputDetectorStep_enter (st : SessSt) (a : List Char) (t : Char)
    (b : List Char) (ha : countTerm a = 0) (ht : isTermC t = true) :
    inputDetectorStep st (a ++ t :: b) =
      (⟨some ((jsSplit isTermC (a ++ t :: b)).tail.headD []),
        (if (jsTrim (st.buffer.getD [] ++ a)).isEmpty then st.pending
          else some false), st.repl⟩,
        if (jsTrim (st.buffer.getD [] ++ a)).isEmpty then []
        else [⟨cmdType st.repl, jsTrim (st.buffer.getD [] ++ a)⟩]) := by
  have hmem : t ∈ a ++ t :: b := by simp
  have hE : (containsL ['\r'] (a ++ t :: b) ||
      containsL ['\n'] (a ++ t :: b)) = true := by
    rcases Bool.or_eq_true_iff.mp ht with h | h
    · have hm : ('\r' : Char) ∈ a ++ t :: b := by
        simp at h
        exact h ▸ hmem
      simp [(containsL_singleton_iff _ _).mpr hm]
    · have hm : ('\n' : Char) ∈ a ++ t :: b := by
        simp at h
        exact h ▸ hmem
      simp [(containsL_singleton_iff _ _).mpr hm]
  have hhead := jsSplit_term_headD a t b ha ht
  unfold inputDetectorStep
  by_cases hr : st.repl.isSome
  · simp only [hr, hE, if_true, hhead, buf_if_append]
    have hct : cmdType st.repl = .REPL_COMMAND := by simp [cmdType, hr]
    rw [hct]
    simp [List.drop_one]
  · simp only [hr, hE, if_true, if_false, Bool.false_eq_true, hhead,
      buf_if_append]
    have hct : cmdType st.repl = .COMMAND := by simp [cmdType, hr]
    rw [hct]
    simp [List.drop_one]

theorem runChunks_no_term (st : SessSt) (chunks : List (List Char))
    (h : countTerm chunks.flatten = 0) : (runChunks st chunks).2 = [] := by
  induction chunks generalizing st with
  | nil => rfl
  | cons d rest ih =>
    have hsum : countTerm d = 0 ∧ countTerm rest.flatten = 0 := by
      rw [List.flatten_cons] at h
      unfold countTerm at *
      rw [List.countP_append] at h
      omega
    rw [runChunks]
    simp only [handleTerminalInput_true]
    rw [inputDetectorStep_no_events st d hsum.1, ih _ hsum.2]
    rfl

theorem replaceOne_append (a : Char) (rep x y : List Char) :
    replaceOne a rep (x ++ y) = replaceOne a rep x ++ replaceOne a rep y := by
  induction x with
  | nil => rfl
  | cons c x' ih =>
    rw [List.cons_append]
    simp only [replaceOne]
    by_cases hc : c = a <;> simp [hc, ih]

theorem encodeStored_cons (c : Char) (p : List Char) :
    encodeStored (c :: p) =
      (if c = '\r' then ['\\', 'r']
        else if c = '\n' then ['\\', 'n'] else [c]) ++ encodeStored p := by
  unfold encodeStored
  have h1 : replaceOne '\r' ['\\', 'r'] (c :: p) =
      (if c = '\r' then ['\\', 'r'] else [c]) ++
        replaceOne '\r' ['\\', 'r'] p := by
    simp only [replaceOne]
    by_cases hc : c = '\r' <;> simp [hc]
  rw [h1, replaceOne_append]
  by_cases hcr : c = '\r'
  · simp [hcr, replaceOne]
  · by_cases hlf : c = '\n' <;> simp [hcr, hlf, replaceOne]

theorem encodeStored_eq_nil (p : List Char) (h : encodeStored p = []) :
    p = [] := by
  cases p with
  | nil => rfl
  | cons c p' =>
    rw [encodeStored_cons] at h
    by_cases hcr : c = '\r' <;> by_cases hlf : c = '\n' <;>
      simp [hcr, hlf] at h

theorem replaceTwo_cons_ne (a b : Char) (rep : List Char) (c : Char)
    (xs : List Char) (h : ¬c = a) :
    replaceTwo a b rep (c :: xs) = c :: replaceTwo a b rep xs := by
  cases xs with
  | nil => rfl
  | cons d rest =>
    simp only [replaceTwo]
    simp [h]

theorem replaceTwo_match (a b : Char) (rep : List Char) (xs : List Char) :
    replaceTwo a b rep (a :: b :: xs) = rep ++ replaceTwo a b rep xs := by
  simp only [replaceTwo]
  simp

theorem replaceTwo_skip (a b : Char) (rep : List Char) (d : Char)
    (xs : List Char) (h : ¬d = b) :
    replaceTwo a b rep (a :: d :: xs) =
      a :: replaceTwo a b rep (d :: xs) := by
  simp only [replaceTwo]
  simp [h]

theorem hasPair_tail (a b c : Char) (l : List Char)
    (h : hasPair a b (c :: l) = false) : hasPair a b l = false := by
  cases l with
  | nil => rfl
  | cons d rest =>
    simp only [hasPair] at h
    exact (Bool.or_eq_false_iff.mp h).2

theorem hasPair_head (a b : Char) (l : List Char)
    (h : hasPair a b (a :: l) = false) (hb : ¬b = '\x00') :
    l.headD '\x00' ≠ b := by
  cases l with
  | nil =>
    simp
    exact fun he => hb he.symm
  | cons d rest =>
    simp only [hasPair] at h
    have := (Bool.or_eq_false_iff.mp h).1
    simp at this
    simpa using this

theorem encodeStored_headD (p : List Char)
    (hr : p.headD '\x00' ≠ 'r') :
    (encodeStored p).headD '\x00' ≠ 'r' := by
  cases p with
  | nil => simp [encodeStored, replaceOne]
  | cons e rest =>
    rw [encodeStored_cons]
    by_cases hcr : e = '\r'
    · simp [hcr]
    · by_cases hlf : e = '\n'
      · simp [hcr, hlf]
      · simp only [hcr, hlf, if_false, List.cons_append, List.nil_append,
          List.headD_cons]
        simpa using hr

theorem replaceTwo_r_headD (p : List Char)
    (hr : p.headD '\x00' ≠ 'r') (hn : p.headD '\x00' ≠ 'n') :
    (replaceTwo '\\' 'r' ['\r'] (encodeStored p)).headD '\x00' ≠ 'n' := by
  cases p with
  | nil => simp [encodeStored, replaceOne, replaceTwo]
  | cons e rest =>
    by_cases hcr : e = '\r'
    · have henc : encodeStored (e :: rest) =
          '\\' :: 'r' :: encodeStored rest := by
        rw [encodeStored_cons, hcr]
        simp
      rw [henc, replaceTwo_match]
      simp
    · by_cases hlf : e = '\n'
      · have henc : encodeStored (e :: rest) =
            '\\' :: 'n' :: encodeStored rest := by
          rw [encodeStored_cons, hlf]
          simp
        rw [henc, replaceTwo_skip _ _ _ _ _ (by decide : ¬('n' : Char) = 'r')]
        simp
      · have henc : encodeStored (e :: rest) = e :: encodeStored rest := by
          rw [encodeStored_cons]
          simp [hcr, hlf]
        rw [henc]
        by_cases hbs : e = '\\'
        · subst hbs
          cases hE : encodeStored rest with
          | nil => simp [replaceTwo]
          | cons x xs =>
            by_cases hx : x = 'r'
            · subst hx
              rw [replaceTwo_match]
              simp
            · rw [replaceTwo_skip _ _ _ _ _ hx]
              simp
        · rw [replaceTwo_cons_ne _ _ _ _ _ hbs]
          simp only [List.headD_cons]
          simpa using hn

theorem decode_unfold (s : List Char) :
    replaceTwo '\\' 'n' ['\n'] (replaceTwo '\\' 'r' ['\r'] s) =
      decodeContent s := rfl

theorem decode_encode_fuel : ∀ n : Nat, ∀ p : List Char, p.length ≤ n →
    hasPair '\\' 'r' p = false → hasPair '\\' 'n' p = false →
    decodeContent (encodeStored p) = p := by
  intro n
  induction n with
  | zero =>
    intro p hp h1 h2
    have hnil : p = [] := by
      cases p with
      | nil => rfl
      | cons c p' => simp at hp
    subst hnil
    rfl
  | succ n ih =>
    intro p hp h1 h2
    cases p with
    | nil => rfl
    | cons c p' =>
      have hp' : p'.length ≤ n := by
        simp at hp
        omega
      have h1' := hasPair_tail _ _ _ _ h1
      have h2' := hasPair_tail _ _ _ _ h2
      by_cases hcr : c = '\r'
      · subst hcr
        have henc : encodeStored ('\r' :: p') =
            '\\' :: 'r' :: encodeStored p' := by
          rw [encodeStored_cons]
          simp
        rw [henc]
        unfold decodeContent
        rw [replaceTwo_match]
        simp only [List.cons_append, List.nil_append]
        rw [replaceTwo_cons_ne _ _ _ _ _ (by decide : ¬('\r' : Char) = '\\')]
        rw [decode_unfold, ih p' hp' h1' h2']
      · by_cases hlf : c = '\n'
        · subst hlf
          have henc : encodeStored ('\n' :: p') =
              '\\' :: 'n' :: encodeStored p' := by
            rw [encodeStored_cons]
            simp
          rw [henc]
          unfold decodeContent
          rw [replaceTwo_skip _ _ _ _ _ (by decide : ¬('n' : Char) = 'r')]
          rw [replaceTwo_cons_ne _ _ _ _ _ (by decide : ¬('n' : Char) = '\\')]
          rw [replaceTwo_match]
          simp only [List.cons_append, List.nil_append]
          rw [decode_unfold, ih p' hp' h1' h2']
        · by_cases hbs : c = '\\'
          · subst hbs
            cases p' with
            | nil => rfl
            | cons d p'' =>
              have hdr : ¬d = 'r' := by
                have := hasPair_head _ _ _ h1 (by decide)
                simpa using this
              have hdn : ¬d = 'n' := by
                have := hasPair_head _ _ _ h2 (by decide)
                simpa using this
              have hp'' : p''.length ≤ n := by
                simp at hp
                omega
              have h1'' := hasPair_tail _ _ _ _ h1'
              have h2'' := hasPair_tail _ _ _ _ h2'
              by_cases hdcr : d = '\r'
              · subst hdcr
                have henc : encodeStored ('\\' :: '\r' :: p'') =
                    '\\' :: '\\' :: 'r' :: encodeStored p'' := by
                  rw [encodeStored_cons, encodeStored_cons]
                  simp
                rw [henc]
                unfold decodeContent
                rw [replaceTwo_skip _ _ _ _ _
                  (by decide : ¬('\\' : Char) = 'r')]
                rw [replaceTwo_match]
                simp only [List.cons_append, List.nil_append]
                rw [replaceTwo_skip _ _ _ _ _
                  (by decide : ¬('\r' : Char) = 'n')]
                rw [replaceTwo_cons_ne _ _ _ _ _
                  (by decide : ¬('\r' : Char) = '\\')]
                rw [decode_unfold, ih p'' hp'' h1'' h2'']
              · by_cases hdlf : d = '\n'
                · subst hdlf
                  have henc : encodeStored ('\\' :: '\n' :: p'') =
                      '\\' :: '\\' :: 'n' :: encodeStored p'' := by
                    rw [encodeStored_cons, encodeStored_cons]
                    simp
                  rw [henc]
                  unfold decodeContent
                  rw [replaceTwo_skip _ _ _ _ _
                    (by decide : ¬('\\' : Char) = 'r')]
                  rw [replaceTwo_skip _ _ _ _ _
                    (by decide : ¬('n' : Char) = 'r')]
                  rw [replaceTwo_cons_ne _ _ _ _ _
                    (by decide : ¬('n' : Char) = '\\')]
                  rw [replaceTwo_skip _ _ _ _ _
                    (by decide : ¬('\\' : Char) = 'n')]
                  rw [replaceTwo_match]
                  simp only [List.cons_append, List.nil_append]
                  rw [decode_unfold, ih p'' hp'' h1'' h2'']
                · by_cases hdbs : d = '\\'
                  · subst hdbs
                    have hhr : p''.headD '\x00' ≠ 'r' :=
                      hasPair_head _ _ _ h1' (by decide)
                    have hhn : p''.headD '\x00' ≠ 'n' :=
                      hasPair_head _ _ _ h2' (by decide)
                    have henc : encodeStored ('\\' :: '\\' :: p'') =
                        '\\' :: '\\' :: encodeStored p'' := by
                      rw [encodeStored_cons, encodeStored_cons]
                      simp
                    rw [henc]
                    unfold decodeContent
                    rw [replaceTwo_skip _ _ _ _ _
                      (by decide : ¬('\\' : Char) = 'r')]
                    have hihd := ih p'' hp'' h1'' h2''
                    cases hE : encodeStored p'' with
                    | nil =>
                      have hnil : p'' = [] := encodeStored_eq_nil p'' hE
                      subst hnil
                      simp [encodeStored, replaceOne, replaceTwo]
                    | cons x xs =>
                      have hx : ¬x = 'r' := by
                        have := encodeStored_headD p'' hhr
                        rw [hE] at this
                        simpa using this
                      rw [replaceTwo_skip _ _ _ _ _ hx, ← hE]
                      rw [replaceTwo_skip _ _ _ _ _
                        (by decide : ¬('\\' : Char) = 'n')]
                      unfold decodeContent at hihd
                      cases hY : replaceTwo '\\' 'r' ['\r']
                          (encodeStored p'') with
                      | nil =>
                        rw [hY] at hihd
                        simp [replaceTwo] at hihd
                        subst hihd
                        simp [replaceTwo]
                      | cons y ys =>
                        have hy : ¬y = 'n' := by
                          have := replaceTwo_r_headD p'' hhr hhn
                          rw [hY] at this
                          simpa using this
                        rw [replaceTwo_skip _ _ _ _ _ hy, ← hY, hihd]
                  · have henc : encodeStored ('\\' :: d :: p'') =
                        '\\' :: d :: encodeStored p'' := by
                      rw [encodeStored_cons, encodeStored_cons]
                      simp [hdcr, hdlf]
                    rw [henc]
                    unfold decodeContent
                    rw [replaceTwo_skip _ _ _ _ _ hdr]
                    rw [replaceTwo_cons_ne _ _ _ _ _ hdbs]
                    rw [replaceTwo_skip _ _ _ _ _ hdn]
                    rw [replaceTwo_cons_ne _ _ _ _ _ hdbs]
                    rw [decode_unfold, ih p'' hp'' h1'' h2'']
          · have henc : encodeStored (c :: p') = c :: encodeStored p' := by
              rw [encodeStored_cons]
              simp [hcr, hlf]
            rw [henc]
            unfold decodeContent
            rw [replaceTwo_cons_ne _ _ _ _ _ hbs]
            rw [replaceTwo_cons_ne _ _ _ _ _ hbs]
            rw [decode_unfold, ih p' hp' h1' h2']

theorem jsSplit_len (p : Char → Bool) (l : List Char) :
    (jsSplit p l).length = l.countP p + 1 := by
  induction l with
  | nil => rfl
  | cons c rest ih =>
    by_cases hc : p c
    · rw [jsSplit_sep _ _ _ hc]
      simp [List.countP_cons, hc, ih]
      try omega
    · rw [jsSplit_nonsep _ _ _ (by simpa using hc)]
      cases hE : jsSplit p rest with
      | nil => exact absurd hE (jsSplit_ne_nil p rest)
      | cons s ss =>
        rw [hE] at ih
        simp at ih
        simp [List.countP_cons, hc, ← ih]

theorem mem_of_getLastQ (l : List Char) (a : Char)
    (h : l.getLast? = some a) : a ∈ l := by
  induction l with
  | nil => simp at h
  | cons c rest ih =>
    cases rest with
    | nil =>
      simp at h
      simp [h]
    | cons d r =>
      rw [List.getLast?_cons_cons] at h
      simp [ih h]

theorem jsSplit_append_endSep (p : Char → Bool) (file rest : List Char)
    (hfile : file = [] ∨ ∃ s, file.getLast? = some s ∧ p s = true) :
    jsSplit p (file ++ rest) =
      (jsSplit p file).dropLast ++ jsSplit p rest := by
  induction file with
  | nil => simp [jsSplit]
  | cons c f' ih =>
    rcases hfile with h | ⟨s, hlast, hps⟩
    · simp at h
    · by_cases hf' : f' = []
      · subst hf'
        simp at hlast
        subst hlast
        rw [List.cons_append, List.nil_append, jsSplit_sep _ _ _ hps,
          jsSplit_sep _ _ _ hps, jsSplit]
        rfl
      · have hlast' : f'.getLast? = some s := by
          cases f' with
          | nil => exact absurd rfl hf'
          | cons d r => rw [← List.getLast?_cons_cons (a := c)]; exact hlast
        have ihr := ih (Or.inr ⟨s, hlast', hps⟩)
        have hmem : s ∈ f' := mem_of_getLastQ f' s hlast'
        have hcount : 0 < f'.countP p :=
          List.countP_pos_iff.mpr ⟨s, hmem, hps⟩
        have hlen : 2 ≤ (jsSplit p f').length := by
          rw [jsSplit_len]
          omega
        by_cases hc : p c
        · rw [List.cons_append, jsSplit_sep _ _ _ hc, ihr,
            jsSplit_sep _ _ _ hc,
            List.dropLast_cons_of_ne_nil (jsSplit_ne_nil p f')]
          rfl
        · have hc' : p c = false := by simpa using hc
          rw [List.cons_append, jsSplit_nonsep _ _ _ hc', ihr,
            jsSplit_nonsep _ _ _ hc']
          cases hE : jsSplit p f' with
          | nil => exact absurd hE (jsSplit_ne_nil p f')
          | cons h0 tl =>
            have htl : tl ≠ [] := by
              rw [hE] at hlen
              cases tl with
              | nil => simp at hlen
              | cons u v => simp
            rw [List.dropLast_cons_of_ne_nil htl]
            simp [List.dropLast_cons_of_ne_nil htl]

theorem encodeStored_no_nl (p : List Char) :
    (encodeStored p).countP (fun c => c = '\n') = 0 := by
  induction p with
  | nil => rfl
  | cons c p' ih =>
    rw [encodeStored_cons, List.countP_append, ih]
    by_cases hcr : c = '\r'
    · simp [hcr]
    · by_cases hlf : c = '\n'
      · simp [hcr, hlf]
      · simp [hcr, hlf, List.countP_cons]

theorem lastEventLine_appendToTranscript (file ts ty p : List Char)
    (hfile : file = [] ∨ file.getLast? = some '\n')
    (hts : ts.countP (fun c => c = '\n') = 0)
    (hty : ty.countP (fun c => c = '\n') = 0) :
    lastEventLine (appendToTranscript file ts ty p) =
      some (eventLine ts ty p) := by
  have hline : (eventLine ts ty p).countP (fun c => c = '\n') = 0 := by
    unfold eventLine
    repeat rw [List.countP_append]
    rw [hts, hty, encodeStored_no_nl]
    decide
  unfold appendToTranscript lastEventLine
  rw [List.append_assoc]
  rw [jsSplit_append_endSep _ file _ (by
    rcases hfile with h | h
    · exact Or.inl h
    · exact Or.inr ⟨'\n', h, by decide⟩)]
  have h2 : jsSplit (fun c => c = '\n') (eventLine ts ty p ++ ['\n']) =
      [eventLine ts ty p, []] := by
    have h3 := jsSplit_single (fun c => c = '\n') (eventLine ts ty p) '\n'
      [] hline (by decide) rfl
    simpa using h3
  rw [h2]
  rw [show (jsSplit (fun c => c = '\n') file).dropLast ++
      [eventLine ts ty p, []] =
      ((jsSplit (fun c => c = '\n') file).dropLast ++
        [eventLine ts ty p]) ++ [[]] from by simp]
  rw [List.dropLast_concat]
  rw [List.getLast?_concat]

theorem decodeContent_encodeStored (p : List Char)
    (h1 : hasPair '\\' 'r' p = false) (h2 : hasPair '\\' 'n' p = false) :
    decodeContent (encodeStored p) = p :=
  decode_encode_fuel p.length p (Nat.le_refl _) h1 h2

theorem runChunks_cons (st : SessSt) (d : List Char)
    (rest : List (List Char)) :
    (runChunks st (d :: rest)).2 =
      (inputDetectorStep st d).2 ++
        (runChunks (inputDetectorStep st d).1 rest).2 := rfl

theorem runChunks_one_term (chunks : List (List Char)) :
    ∀ st : SessSt, countTerm (st.buffer.getD []) = 0 →
      countTerm chunks.flatten = 1 →
      (∀ c ∈ chunks, ¬c = ['\x08'] ∧ ¬c = ['\x7f']) →
      (runChunks st chunks).2 =
        (if (jsTrim (takeNonTerm (st.buffer.getD [] ++
            chunks.flatten))).isEmpty then []
          else [⟨cmdType st.repl,
            jsTrim (takeNonTerm (st.buffer.getD [] ++ chunks.flatten))⟩]) := by
  induction chunks with
  | nil =>
    intro st h1 h2 h3
    simp [countTerm] at h2
  | cons d rest ih =>
    intro st h1 h2 h3
    have hflat : countTerm (d :: rest).flatten =
        countTerm d + countTerm rest.flatten := by
      rw [List.flatten_cons]
      unfold countTerm
      rw [List.countP_append]
    by_cases hd : countTerm d = 0
    · have hrest : countTerm rest.flatten = 1 := by
        rw [hflat] at h2
        omega
      have hbs := h3 d (by simp)
      rw [runChunks_cons, inputDetectorStep_append st d hd hbs.1 hbs.2]
      have hbd : countTerm (st.buffer.getD [] ++ d) = 0 := by
        unfold countTerm
        rw [List.countP_append]
        unfold countTerm at h1 hd
        omega
      have hih := ih ⟨some (st.buffer.getD [] ++ d), some true, st.repl⟩
        hbd hrest (fun c hc => h3 c (by simp [hc]))
      simp only [Option.getD_some] at hih
      simp only [List.nil_append]
      rw [hih]
      rw [List.flatten_cons, List.append_assoc]
    · have hd1 : countTerm d = 1 ∧ countTerm rest.flatten = 0 := by
        rw [hflat] at h2
        omega
      obtain ⟨a, t, b, hdec, ht, ha0⟩ := countTerm_pos_decomp d hd
      subst hdec
      rw [runChunks_cons, inputDetectorStep_enter st a t b ha0 ht]
      rw [runChunks_no_term _ rest hd1.2]
      have hpre : takeNonTerm (st.buffer.getD [] ++
          ((a ++ t :: b) :: rest).flatten) = st.buffer.getD [] ++ a := by
        rw [List.flatten_cons, takeNonTerm_append_noTerm _ _ h1]
        congr 1
        rw [List.append_assoc, List.cons_append,
          takeNonTerm_append_noTerm a _ ha0, takeNonTerm_cons_term t _ ht,
          List.append_nil]
      rw [hpre]
      simp only [List.append_nil]

theorem fmtPass2Step_input (acc : List (List Char) × FmtBlock)
    (e : RawEvent) (h : e.ty = ("INPUT").data) : fmtPass2Step acc e = acc := by
  simp +decide [fmtPass2Step, h]

theorem collectClean_filter (fmtTs : List Char → List Char)
    (lines : List (List Char)) :
    collectCleanEvents fmtTs lines =
      (collectCleanEventsAll fmtTs lines).filter
        (fun e => !(e.ty == ("INPUT").data)) := by
  induction lines with
  | nil => rfl
  | cons line rest ih =>
    simp only [collectCleanEvents, collectCleanEventsAll]
    by_cases h1 : ((jsTrim line).isEmpty ||
        startsWithL ['#'] (jsTrim line)) = true
    · simp only [h1, if_true]
      exact ih
    · simp only [h1, if_false, Bool.false_eq_true]
      cases hp : parseEventLine (jsTrim line) with
      | none => exact ih
      | some e =>
        by_cases he : e.ty = ("INPUT").data
        · simp only [he, if_pos rfl]
          rw [ih]
          rw [List.filter_cons]
          simp [he]
        · simp only [he, if_false]
          rw [ih]
          rw [List.filter_cons]
          simp [he]

theorem fmtPass2_foldl_filter : ∀ (evs : List RawEvent)
    (acc : List (List Char) × FmtBlock),
    (evs.filter (fun e => !(e.ty == ("INPUT").data))).foldl fmtPass2Step acc
      = evs.foldl fmtPass2Step acc := by
  intro evs
  induction evs with
  | nil => intro acc; rfl
  | cons e rest ih =>
    intro acc
    by_cases he : e.ty = ("INPUT").data
    · rw [List.filter_cons]
      simp only [he, beq_self_eq_true, Bool.not_true, Bool.false_eq_true,
        if_false]
      rw [List.foldl_cons, fmtPass2Step_input acc e he]
      exact ih acc
    · rw [List.filter_cons]
      have hpred : (!(e.ty == ("INPUT").data)) = true := by simp [he]
      rw [hpred]
      simp only [if_true]
      rw [List.foldl_cons, List.foldl_cons]
      exact ih (fmtPass2Step acc e)

theorem fmtPass2_filter (evs : List RawEvent) :
    fmtPass2 (evs.filter (fun e => !(e.ty == ("INPUT").data))) =
      fmtPass2 evs := by
  unfold fmtPass2
  rw [fmtPass2_foldl_filter]

/-!
## Claim theorems
-/

/-- C10: on a connected session a throwing transport write sends an `error`
event to the client and delivers nothing to the transport, while the
transcript events and detector state produced by the call are exactly those
of a successful call — the command append precedes the write and is not
rolled back. -/
theorem c10_append_precedes_write (st : SessSt) (data : List Char) :
    (handleTerminalInput true false st data).errorToClient = true ∧
    (handleTerminalInput true false st data).wroteData = none ∧
    (handleTerminalInput true false st data).appended =
      (handleTerminalInput true true st data).appended ∧
    (handleTerminalInput true false st data).st =
      (handleTerminalInput true true st data).st := by
  simp [handleTerminalInput]

/-- C5: with the REPL state at the python tag, an output chunk matching none
of the classifier rules a-f and no shell-prompt pattern leaves the state at
the python tag. -/
theorem c5_repl_sticky (out : List Char)
    (ha1 : containsL (">>> ").data out = false)
    (ha2 : containsL ("... ").data out = false)
    (hb : (containsL ("> ").data out &&
      (containsL ("node").data out || matchJsPromptEnd out)) = false)
    (hc : matchIrbEnd out = false)
    (hd : matchScalaEnd out = false)
    (he : matchGhciEnd out = false)
    (hf : (containsL ("╭").data out && containsL ("╰").data out) = false)
    (hs1 : shellPromptEnd out = false)
    (hs2 : userHostSearch out = false) :
    detectReplEnvironment (some ("python").data) out =
      some ("python").data := by
  simp [detectReplEnvironment, ha1, ha2, hb, hc, hd, he, hf, hs1, hs2]

/-- Witness for C5 at a concrete non-matching output chunk. -/
theorem c5_repl_sticky_witness :
    detectReplEnvironment (some ("python").data) ("computing").data =
      some ("python").data :=
  c5_repl_sticky ("computing").data (by decide) (by decide) (by decide)
    (by decide) (by decide) (by decide) (by decide) (by decide) (by decide)

/-- C9 counterexample: in the demo terminal, sending `exit` while the
python tag (a named-language tag) is set removes the REPL tag, although this
is input handling, not session teardown. -/
theorem c9_counterexample :
    (demoWrite (fun _ => none) [] (some ("python").data)
      ("exit\r").data).1 = none ∧
    isNamedRepl (some ("python").data) = true := by decide

set_option maxHeartbeats 1000000 in
/-- C9 amended: the output classifier never clears a named-language tag
(it either keeps it or replaces it with another REPL tag), and the demo
terminal write handler removes a named tag only for an `exit` command. -/
theorem c9_amended :
    (∀ tag out, isNamedRepl (some tag) = true →
      (detectReplEnvironment (some tag) out).isSome = true) ∧
    (∀ f now tag data, isNamedRepl (some tag) = true →
      (demoWrite f now (some tag) data).1 = none →
      containsL ['\r'] data = true ∧ jsTrim data = ("exit").data) := by
  constructor
  · intro tag out h
    unfold detectReplEnvironment
    repeat' split
    all_goals simp_all
  · intro f now tag data h hn
    by_cases hcr : containsL ['\r'] data
    · refine ⟨hcr, ?_⟩
      by_cases hex : jsTrim data = ("exit").data
      · exact hex
      · exfalso
        simp only [demoWrite, hcr] at hn
        by_cases hpy : jsTrim data = ("python").data
        · simp [hpy] at hn
        · by_cases hno : jsTrim data = ("node").data
          · simp [hno] at hn
          · simp [hpy, hno, hex] at hn
    · simp only [demoWrite, hcr] at hn
      simp at hn

/-- Witness for C9 at a concrete named tag and output chunk. -/
theorem c9_amended_witness :
    (detectReplEnvironment (some ("ruby").data) ("anything").data).isSome =
      true :=
  c9_amended.1 ("ruby").data ("anything").data (by decide)

/-- C6 counterexample: with key authentication, no private key, and the
demo-mode flag set, session creation succeeds although the claim condition
for a validation failure holds. -/
theorem c6_counterexample :
    isValidationError (createSessionEndpoint
      ⟨some ("h").data, some ("u").data, some ("key").data, none, none, true⟩
      ("s1").data) = false ∧
    claimValidationFails
      ⟨some ("h").data, some ("u").data, some ("key").data, none, none, true⟩
      = true := by decide

/-- C6 amended: session creation fails with a validation error exactly when
host or username is missing, or password auth lacks a password, or key auth
lacks a private key while demo mode is not set; otherwise it succeeds with
the generated session id. -/
theorem c6_amended (p : CreateParams) (sid : List Char) :
    (isValidationError (createSessionEndpoint p sid) = true ↔
      (!jsTruthy p.host || !jsTruthy p.username ||
        (p.authMethod = some ("password").data && !jsTruthy p.password) ||
        (p.authMethod = some ("key").data && !jsTruthy p.privateKey &&
          !p.demoMode)) = true) ∧
    ((!jsTruthy p.host || !jsTruthy p.username ||
        (p.authMethod = some ("password").data && !jsTruthy p.password) ||
        (p.authMethod = some ("key").data && !jsTruthy p.privateKey &&
          !p.demoMode)) = false →
      createSessionEndpoint p sid = .created sid) := by
  constructor
  · unfold createSessionEndpoint
    repeat' split
    all_goals simp_all [isValidationError]
  · intro hfalse
    unfold createSessionEndpoint
    repeat' split
    all_goals simp_all

/-- Witness for C6: a fully specified password request creates the
session. -/
theorem c6_amended_witness :
    createSessionEndpoint
      ⟨some ("h").data, some ("u").data, some ("password").data,
        some ("pw").data, none, false⟩ ("s2").data =
      .created ("s2").data :=
  (c6_amended
(⟨some ("h").data, some ("u").data, some ("password").data,
        some ("pw").data, none, false⟩) (("s2").data)).2 (by decide)

/-- C4 counterexample: the standalone server delete endpoint answers a 404
error body for an absent session id, not a success or idempotent
not-found. -/
theorem c4_counterexample :
    (deleteSessionEndpoint [] ("abc").data).1 =
      ⟨404, false, some ("Session not found").data, none⟩ := by decide

/-- C4 amended: the terminal API terminate is idempotent — an absent
session id answers 200 success with a not-found message, and a second
terminate of a just-deleted session behaves the same — while the standalone
server delete endpoint answers a 404 error for an absent session. -/
theorem c4_amended :
    (∀ store sid, sid.isEmpty = false → getSession store sid = none →
      terminateSession store (some sid) =
        (⟨200, true, none,
          some ("Session not found or already terminated").data⟩, store)) ∧
    (∀ store sid s, sid.isEmpty = false → getSession store sid = some s →
      (terminateSession store (some sid)).1 = ⟨200, true, none, none⟩ ∧
      (terminateSession (terminateSession store (some sid)).2 (some sid)).1 =
        ⟨200, true, none,
          some ("Session not found or already terminated").data⟩) ∧
    (∀ sessions sid, sessionsHas sessions sid = false →
      (deleteSessionEndpoint sessions sid).1 =
        ⟨404, false, some ("Session not found").data, none⟩) := by
  refine ⟨?_, ?_, ?_⟩
  · intro store sid hsid hget
    simp [terminateSession, hsid, hget]
  · intro store sid s hsid hget
    constructor
    · simp [terminateSession, hsid, hget]
    · simp [terminateSession, hsid, hget, getSession_deleteSession]
  · intro sessions sid hget
    simp [deleteSessionEndpoint, hget]

/-- Witness for C4: terminating an absent session on an empty registry
answers 200 success. -/
theorem c4_amended_witness :
    terminateSession [] (some ("abc").data) =
      (⟨200, true, none,
        some ("Session not found or already terminated").data⟩, []) :=
  c4_amended.1 [] ("abc").data (by decide) rfl

/-- C2 counterexample: with the pending flag set and a nonempty buffer of
one space, teardown emits no incomplete-command event, contrary to the
claim's nonempty-buffer condition. -/
theorem c2_counterexample :
    (cleanupSession ⟨some [' '], some true, none⟩).1 = [] ∧
    ([' '] : List Char) ≠ [] := by decide

/-- C2 amended: teardown flushes exactly one incomplete-command event —
typed by the current REPL state, with payload the trimmed buffer followed by
the incomplete marker — precisely when the pending flag is set and the
buffer trims to a nonempty string; otherwise (pending unset or absent,
buffer absent, or buffer trimming to empty) it emits nothing. -/
theorem c2_amended :
    (∀ repl buf pending,
      (cleanupSession ⟨some buf, pending, repl⟩).1 =
        if pending.getD false && !(jsTrim buf).isEmpty then
          [⟨cmdType repl, jsTrim buf ++ (" (incomplete)").data⟩]
        else []) ∧
    (∀ repl pending, (cleanupSession ⟨none, pending, repl⟩).1 = []) := by
  constructor
  · intro repl buf pending
    unfold cleanupSession
    by_cases hb : buf = []
    · subst hb
      rcases pending with _ | b
      · simp [jsTrim_nil]
      · cases b <;> simp [jsTrim_nil]
    · rcases pending with _ | b
      · simp [hb]
      · cases b <;> simp [hb]
  · intro repl pending
    rfl

/-- C8 counterexample: the demo `ls` scenario broadcasts three `output`
events, not two. -/
theorem c8_counterexample : ¬ demoLsScenario.broadcasts.length = 2 := by
  decide

/-- C8 amended: in a demo session at the prompt, the input chunk `ls\r`
produces exactly three broadcast `output` events whose concatenation
contains `file1.txt` and ends with the demo prompt, and appends exactly one
command event, a `COMMAND` with payload `ls`. -/
theorem c8_amended :
    demoLsScenario.broadcasts.length = 3 ∧
    containsL ("file1.txt").data demoLsScenario.broadcasts.flatten = true ∧
    endsWithL ("demo@localhost:~$ ").data demoLsScenario.broadcasts.flatten
      = true ∧
    demoLsScenario.appended.filter
      (fun e => e.type = .COMMAND || e.type = .REPL_COMMAND) =
      [⟨.COMMAND, ("ls").data⟩] := by decide

/-- C1 counterexample: the single chunk consisting of one carriage return
contains exactly one line terminator, yet the detector emits no event at
all (the trimmed buffer is empty), so the claimed exactly-one-event
property fails. -/
theorem c1_counterexample :
    countTerm ([['\r']] : List (List Char)).flatten = 1 ∧
    (runChunks (freshSt none) [['\r']]).2 = [] := by decide

/-- C1 amended: for a chunk sequence with exactly one line terminator, no
chunk equal to a lone backspace or delete byte, and a pre-terminator
concatenation that trims to a nonempty string, the detector emits exactly
one event — COMMAND or REPL_COMMAND according to the REPL state — whose
payload is the trimmed concatenation of the input up to (not including)
the terminator. -/
theorem c1_amended (repl : Option (List Char)) (chunks : List (List Char))
    (h1 : countTerm chunks.flatten = 1)
    (h2 : ∀ c ∈ chunks, ¬c = ['\x08'] ∧ ¬c = ['\x7f'])
    (h3 : (jsTrim (takeNonTerm chunks.flatten)).isEmpty = false) :
    (runChunks (freshSt repl) chunks).2 =
      [⟨cmdType repl, jsTrim (takeNonTerm chunks.flatten)⟩] ∧
    (cmdType repl = .COMMAND ∨ cmdType repl = .REPL_COMMAND) := by
  have h := runChunks_one_term chunks (freshSt repl) (by rfl) h1 h2
  have hb : (freshSt repl).buffer.getD [] = [] := rfl
  rw [hb, List.nil_append] at h
  constructor
  · rw [h, h3]
    simp
    rfl
  · unfold cmdType
    by_cases hr : repl.isSome <;> simp [hr]

/-- Witness for C1: typing `ls` then a carriage return in shell mode
records one COMMAND event with payload `ls`. -/
theorem c1_amended_witness :
    (runChunks (freshSt none) [("ls").data, ['\r']]).2 =
      [⟨cmdType none,
        jsTrim (takeNonTerm ([("ls").data, ['\r']] :
          List (List Char)).flatten)⟩] ∧
    (cmdType none = .COMMAND ∨ cmdType none = .REPL_COMMAND) :=
  c1_amended none [("ls").data, ['\r']] (by decide) (by decide) (by decide)

/-- C3 counterexample: the two-character payload backslash-r is stored
unchanged and decoded to a carriage return, so decode after encode is not
the identity on every payload. -/
theorem c3_counterexample :
    decodeContent (encodeStored ['\\', 'r']) = ['\r'] ∧
    ¬(['\r'] : List Char) = ['\\', 'r'] := by decide

/-- C3 amended: appending an event to a transcript whose contents are empty
or end in a newline stores it as the final line (before the trailing
newline), with carriage returns and newlines escaped as backslash-r and
backslash-n; and for every payload that contains neither the two-character
sequence backslash-r nor backslash-n, the clean-view decoding inverts the
escaping, decode (encode payload) = payload. -/
theorem c3_amended (file ts ty p : List Char)
    (hfile : file = [] ∨ file.getLast? = some '\n')
    (hts : ts.countP (fun c => c = '\n') = 0)
    (hty : ty.countP (fun c => c = '\n') = 0)
    (h1 : hasPair '\\' 'r' p = false) (h2 : hasPair '\\' 'n' p = false) :
    lastEventLine (appendToTranscript file ts ty p) =
      some (eventLine ts ty p) ∧
    decodeContent (encodeStored p) = p :=
  ⟨lastEventLine_appendToTranscript file ts ty p hfile hts hty,
    decodeContent_encodeStored p h1 h2⟩

/-- Witness for C3 at a concrete transcript and a payload containing a
carriage return and a newline. -/
theorem c3_amended_witness :
    lastEventLine (appendToTranscript ("# Terminal Transcript\n").data
      ("2024-01-01T00:00:00.000Z").data ("OUTPUT").data ("ls\r\n").data) =
      some (eventLine ("2024-01-01T00:00:00.000Z").data ("OUTPUT").data
        ("ls\r\n").data) ∧
    decodeContent (encodeStored ("ls\r\n").data) = ("ls\r\n").data :=
  c3_amended ("# Terminal Transcript\n").data
    ("2024-01-01T00:00:00.000Z").data ("OUTPUT").data ("ls\r\n").data
    (by decide) (by decide) (by decide) (by decide) (by decide)

/-- C7: both clean-view formatters discard every event parsed with type
tag INPUT, so their output never depends on INPUT events: the clean-view
collection pass equals the unfiltered parse with INPUT events filtered out,
the block formatter's pass 2 is unchanged by removing INPUT events, and the
full outputs of both formatters equal the outputs computed from the
INPUT-filtered event lists. -/
theorem c7_input_discarded :
    (∀ (fmtTs : List Char → List Char) (lines : List (List Char)),
      collectCleanEvents fmtTs lines =
        (collectCleanEventsAll fmtTs lines).filter
          (fun e => !(e.ty == ("INPUT").data))) ∧
    (∀ evs : List RawEvent,
      fmtPass2 evs =
        fmtPass2 (evs.filter (fun e => !(e.ty == ("INPUT").data)))) ∧
    (∀ (fmtTs : List Char → List Char) (dateVal : List Char → Int)
        (raw : List Char),
      getCleanTranscriptContent fmtTs dateVal raw =
        (if raw.isEmpty then []
          else buildClean dateVal
            ((collectCleanEventsAll fmtTs
                (jsSplit (fun c => c = '\n') raw)).filter
              (fun e => !(e.ty == ("INPUT").data))))) ∧
    (∀ raw : List Char,
      formatTranscript raw =
        (if raw.isEmpty then []
          else formatFromEvents
            (fmtParse (jsSplit (fun c => c = '\n') raw)).1
            ((fmtParse (jsSplit (fun c => c = '\n') raw)).2.filter
              (fun e => !(e.ty == ("INPUT").data))))) := by
  refine ⟨collectClean_filter, fun evs => (fmtPass2_filter evs).symm,
    ?_, ?_⟩
  · intro fmtTs dateVal raw
    unfold getCleanTranscriptContent
    rw [collectClean_filter]
  · intro raw
    unfold formatTranscript formatFromEvents
    rw [fmtPass2_filter]

end KodeXterm
